import Mathlib

/-!
# Verification of the JMX correlation candidate detection engine

A shallow embedding of `handlers/correlationEngine.js` (the
`analyzeJMXForCorrelation` pipeline) together with proofs of the stated
properties of its specification.

The parsed XML document (the output of `xml2js.parseStringPromise` with
`explicitArray: false`) is modelled as `JTree`: a JavaScript value that is
either a string leaf, an object with ordered string-keyed fields, or an
array.  Property access, truthiness, and the single/array ambiguity are
modelled explicitly.  The one place the JavaScript code can raise a
`TypeError` (calling `.trim()` on a truthy non-string `_` field) is
modelled with `Except`; everything else is total, mirroring the pervasive
`?.` / `||` defaulting in the source.

The four extraction regexes are embedded as dedicated scanners that follow
the JavaScript `RegExp.exec` loop semantics (leftmost match at or after
`lastIndex`, greedy with backtracking, `lastIndex` advanced to the match
end, word boundaries checked against the actual neighbouring characters).
-/

/-- A JavaScript value as produced by `xml2js` with `explicitArray: false`:
a string leaf, an object with ordered fields, or an array. -/
inductive JTree where
  | str : String → JTree
  | obj : List (String × JTree) → JTree
  | arr : List JTree → JTree

/-- JavaScript truthiness of a `JTree` value: only the empty string is
falsy (objects and arrays, even empty ones, are truthy). -/
def truthy : JTree → Bool
  | .str s => s != ""
  | _ => true

/-- Is the value a string leaf? -/
def JTree.isStr : JTree → Bool
  | .str _ => true
  | _ => false

/-- JavaScript property access `node[key]`: defined only on objects
(string-keyed access on arrays and strings yields `undefined`). -/
def getField : JTree → String → Option JTree
  | .obj kvs, k => (kvs.find? (fun kv => kv.1 == k)).map (fun kv => kv.2)
  | _, _ => none

/-- Extract the string of a string leaf. -/
def getStr : JTree → Option String
  | .str s => some s
  | _ => none

/-- JavaScript `String.prototype.startsWith`. -/
def strStartsWith (s pre : String) : Bool :=
  s.toList.take pre.toList.length == pre.toList

/-- JavaScript whitespace trimmed by `String.prototype.trim` (ASCII part). -/
def jsWhitespace (c : Char) : Bool :=
  c == ' ' || c == '\t' || c == '\n' || c == '\r' || c == '\x0b' || c == '\x0c'

/-- JavaScript `String.prototype.trim`. -/
def jsTrim (s : String) : String :=
  String.mk (((s.toList.dropWhile jsWhitespace).reverse.dropWhile jsWhitespace).reverse)

/-- `l.split(sep)` for a single separator character, JavaScript
`String.prototype.split` semantics (the empty list splits to `[[]]`). -/
def splitOnChar (sep : Char) : List Char → List (List Char)
  | [] => [[]]
  | c :: rest =>
    if c == sep then [] :: splitOnChar sep rest
    else
      match splitOnChar sep rest with
      | [] => [[c]]
      | seg :: segs => (c :: seg) :: segs

/-- Hexadecimal digit, case-insensitive (the `/i` flag on the UUID regexes). -/
def isHexChar (c : Char) : Bool :=
  c.isDigit || ('a' ≤ c && c ≤ 'f') || ('A' ≤ c && c ≤ 'F')

/-- Numeric value of a hexadecimal digit. -/
def hexVal (c : Char) : Nat :=
  if c.isDigit then c.toNat - 48
  else if 'a' ≤ c && c ≤ 'f' then c.toNat - 87
  else c.toNat - 55

/-- Percent- and plus-decoding applied by `URLSearchParams` to parameter
values (ASCII fragment: `+` becomes a space, `%hh` becomes the byte). -/
def decodeComponent : List Char → List Char
  | [] => []
  | '+' :: rest => ' ' :: decodeComponent rest
  | '%' :: a :: b :: rest =>
    if isHexChar a && isHexChar b then
      Char.ofNat (16 * hexVal a + hexVal b) :: decodeComponent rest
    else '%' :: decodeComponent (a :: b :: rest)
  | c :: rest => c :: decodeComponent rest

/-- The ordered value list of `new URLSearchParams(query).values()`: split
on `&`, skip empty segments, take the (decoded) part after the first `=`
of each segment (or the empty string when there is no `=`). -/
def queryParamValues (query : List Char) : List String :=
  ((splitOnChar '&' query).filter (fun seg => seg ≠ [])).map (fun seg =>
    match (seg.dropWhile (fun c => c != '=')) with
    | [] => ""
    | _ :: v => String.mk (decodeComponent v))

/-- Insertion into a JavaScript `Set` viewed as its insertion-ordered
element list: appends unless already present. -/
def setAdd (values : List String) (v : String) : List String :=
  if values.contains v then values else values ++ [v]

/-- `forEach(v => values.add(v))`. -/
def setAddAll (values : List String) (vs : List String) : List String :=
  vs.foldl setAdd values

/-!
## Heuristic predicates and classification (`correlationEngine.js`, Utilities)
-/

/-- `isIgnorable(value)`: empty, already parameterized (`${...}`), a
boolean literal, or shorter than 4 characters. -/
def isIgnorable (value : String) : Bool :=
  if value == "" then true
  else if strStartsWith value "$\x7b" then true
  else if value == "true" || value == "false" then true
  else if value.length < 4 then true
  else false

/-- One consumed hex group of a UUID: `n` hexadecimal characters. -/
def hexGroup (n : Nat) (l : List Char) : Option (List Char) :=
  if (l.take n).length == n && (l.take n).all isHexChar then some (l.drop n) else none

/-- One consumed `-` separator of a UUID. -/
def dashChar : List Char → Option (List Char)
  | [] => none
  | c :: r => if c = '-' then some r else none

/-- The 8-4-4-4-12 hexadecimal UUID body: consume the five dash-separated
hex groups, returning the remaining input. -/
def uuidChain (l : List Char) : Option (List Char) :=
  ((((((((hexGroup 8 l).bind dashChar).bind (hexGroup 4)).bind dashChar).bind
    (hexGroup 4)).bind dashChar).bind (hexGroup 4)).bind dashChar).bind (hexGroup 12)

/-- The anchored UUID shape `/^[0-9a-f]{8}-[0-9a-f]{4}-[0-9a-f]{4}-[0-9a-f]{4}-[0-9a-f]{12}$/i`. -/
def looksLikeUUID (v : String) : Bool :=
  match uuidChain v.toList with
  | some [] => true
  | _ => false

/-- `looksLikeJWT(v)`: `v.startsWith("eyJ") && v.split(".").length === 3`. -/
def looksLikeJWT (v : String) : Bool :=
  strStartsWith v "eyJ" && (splitOnChar '.' v.toList).length == 3

/-- The anchored numeric-id shape `/^\d{6,14}$/`. -/
def looksLikeNumericId (v : String) : Bool :=
  (6 ≤ v.toList.length && v.toList.length ≤ 14) && v.toList.all Char.isDigit

/-- The anchored alphanumeric shape `/^[a-zA-Z0-9]{6,20}$/`. -/
def looksLikeAlphaNumeric (v : String) : Bool :=
  (6 ≤ v.toList.length && v.toList.length ≤ 20) && v.toList.all Char.isAlphanum

/-- `classifyValue(value)`: first matching predicate wins. -/
def classifyValue (value : String) : String :=
  if looksLikeJWT value then "JWT_TOKEN"
  else if looksLikeUUID value then "UUID"
  else if looksLikeNumericId value then "NUMERIC_ID"
  else if looksLikeAlphaNumeric value then "GENERIC_DYNAMIC_VALUE"
  else "UNKNOWN"

/-- A `{ samplerName, order }` occurrence recorded in the value index.  The
sampler name is kept as the JavaScript value the engine computed for it. -/
structure Occurrence where
  samplerName : JTree
  order : Nat

/-- `calculateConfidence(value, occurrences)`. -/
def calculateConfidence (value : String) (occurrences : List Occurrence) : String :=
  if 3 ≤ occurrences.length then "HIGH"
  else if looksLikeJWT value || looksLikeUUID value then "HIGH"
  else if looksLikeNumericId value then "MEDIUM"
  else "LOW"

/-- A recommendation; the `regex` / `jsonPath` fields are present only on
the branches of `buildRecommendation` that set them. -/
structure Recommendation where
  extractor : String
  variableName : String
  regex : Option String
  jsonPath : Option String
  usage : String

/-- `buildRecommendation(value, type)`: a pure lookup on the type tag. -/
def buildRecommendation (_value : String) (type : String) : Recommendation :=
  if type == "JWT_TOKEN" then
    { extractor := "Regex Extractor", variableName := "jwt_token",
      regex := some "eyJ[a-zA-Z0-9._-]+", jsonPath := none,
      usage := "Extract token from login response and use in Authorization header" }
  else if type == "UUID" then
    { extractor := "JSON Extractor", variableName := "uuid_var",
      regex := none, jsonPath := some "$..id",
      usage := "Extract UUID from previous response" }
  else if type == "NUMERIC_ID" then
    { extractor := "JSON Extractor", variableName := "id_var",
      regex := none, jsonPath := some "$..id",
      usage := "Replace hardcoded numeric ID with extracted variable" }
  else
    { extractor := "Regex / JSON Extractor", variableName := "dynamic_var",
      regex := none, jsonPath := none,
      usage := "Extract from previous response before reuse" }

/-!
## The pattern scanners (`extractLiterals`)

Each of the four `g`-flagged regexes is embedded as a match-at-position
function; `execScanF` replays the JavaScript `exec` loop.  A match-at
function receives the character preceding the current position (for `\b`)
and the remaining text, and returns `some k` when the regex matches
exactly `k + 1` characters there.
-/

/-- JavaScript `\w`: `[A-Za-z0-9_]`. -/
def isWordChar (c : Char) : Bool :=
  c.isAlphanum || c == '_'

/-- `\b` holds before the current position: start of input or a non-word
character immediately before. -/
def wordBoundaryBefore : Option Char → Bool
  | none => true
  | some c => !isWordChar c

/-- `\b` holds after `n` consumed characters: end of input or a non-word
character at index `n`. -/
def boundaryAfter (cs : List Char) (n : Nat) : Bool :=
  match cs.get? n with
  | none => true
  | some c => !isWordChar c

/-- Greedy backtracking over a counted repetition: the largest `m` with
`lo ≤ m ≤ hi` whose following position is a word boundary. -/
def backtrackLen (cs : List Char) (lo hi : Nat) : Option Nat :=
  (List.range' lo (hi + 1 - lo)).reverse.find? (fun m => boundaryAfter cs m)

/-- Match of `/\b\d{6,14}\b/` at the current position. -/
def numMatchAt (prevc : Option Char) (cs : List Char) : Option Nat :=
  if wordBoundaryBefore prevc then
    match backtrackLen cs 6 (min (cs.takeWhile Char.isDigit).length 14) with
    | some m => some (m - 1)
    | none => none
  else none

/-- Match of `/\b[a-zA-Z0-9]{6,20}\b/` at the current position. -/
def alphaNumMatchAt (prevc : Option Char) (cs : List Char) : Option Nat :=
  if wordBoundaryBefore prevc then
    match backtrackLen cs 6 (min (cs.takeWhile Char.isAlphanum).length 20) with
    | some m => some (m - 1)
    | none => none
  else none

/-- Match of the UUID regex
`/\b[0-9a-f]{8}-[0-9a-f]{4}-[0-9a-f]{4}-[0-9a-f]{4}-[0-9a-f]{12}\b/gi`
at the current position (fixed 36-character shape). -/
def uuidMatchAt (prevc : Option Char) (cs : List Char) : Option Nat :=
  if wordBoundaryBefore prevc then
    match uuidChain cs with
    | some _ => if boundaryAfter cs 36 then some 35 else none
    | none => none
  else none

/-- The character class `[a-zA-Z0-9._-]` of the JWT regex. -/
def isJwtChar (c : Char) : Bool :=
  c.isAlphanum || c == '.' || c == '_' || c == '-'

/-- Whether a run of JWT characters can be decomposed as
`[..]+ \. [..]+ \. [..]+`: two literal dots, not at the very start, at
least one character apart, and not reaching the last character.  When it
can, the greedy match consumes the whole run. -/
def jwtDecomposes (run : List Char) : Bool :=
  (List.range run.length).any (fun i =>
    run.get? i == some '.' && decide (1 ≤ i) &&
      (List.range run.length).any (fun j =>
        run.get? j == some '.' && decide (i + 2 ≤ j) && decide (j + 2 ≤ run.length)))

/-- Match of `/eyJ[a-zA-Z0-9._-]+\.[a-zA-Z0-9._-]+\.[a-zA-Z0-9._-]+/g` at
the current position (no word boundaries; the class contains `.`, so a
successful greedy match always extends to the end of the maximal run). -/
def jwtMatchAt (_prevc : Option Char) (cs : List Char) : Option Nat :=
  match cs with
  | 'e' :: 'y' :: 'J' :: rest =>
    let run := rest.takeWhile isJwtChar
    if jwtDecomposes run then some (run.length + 2) else none
  | _ => none

/-- The `while ((m = r.exec(text)) !== null)` loop: look for the leftmost
match at or after the current position, record it, continue after its end.
Fuel is the length of the remaining text (every match consumes at least
one character, so this never runs out). -/
def execScanF (matchAt : Option Char → List Char → Option Nat) :
    Nat → Option Char → List Char → List (List Char)
  | 0, _, _ => []
  | _ + 1, _, [] => []
  | fuel + 1, prevc, c :: rest =>
    match matchAt prevc (c :: rest) with
    | some k =>
      (c :: rest).take (k + 1) ::
        execScanF matchAt fuel ((c :: rest).get? k) ((c :: rest).drop (k + 1))
    | none => execScanF matchAt fuel (some c) rest

/-- All matches of one regex over `text`, in order. -/
def runScan (matchAt : Option Char → List Char → Option Nat) (text : List Char) : List String :=
  (execScanF matchAt text.length none text).map (fun l => String.mk l)

/-- `extractLiterals(text)`: all matches of the four patterns, in pattern
order (UUID, JWT, numeric, alphanumeric), duplicates included. -/
def extractLiterals (text : String) : List String :=
  if text == "" then []
  else
    runScan uuidMatchAt text.toList ++ runScan jwtMatchAt text.toList ++
      runScan numMatchAt text.toList ++ runScan alphaNumMatchAt text.toList

/-!
## Request value extraction (`extractRequestValues`)

The only operations that can raise in the JavaScript are the two
`.trim()` calls on a `_` field that is truthy but not a string; they are
modelled with `Except Unit`.
-/

/-- `p.$?.name`, as a string (a non-string attribute never compares
strictly equal to a property-name string). -/
def attrName (p : JTree) : Option String :=
  ((getField p "$").bind (fun a => getField a "name")).bind getStr

/-- `sampler.stringProp?.find?.(p => p.$?.name === pname) ||
sampler.stringProp?.[pname]`: on an array, the built-in `find` runs; on
an object the `find` property is normally `undefined` (the optional call
short-circuits and the direct key access is used) — but when the object
carries a `find` key its value is a non-callable `xml2js` node, so the
optional call invokes a non-function and raises a `TypeError`. -/
def findProp (field : Option JTree) (pname : String) : Except Unit (Option JTree) :=
  match field with
  | some (.arr l) => .ok (l.find? (fun p => attrName p == some pname))
  | some (.obj kvs) =>
    match getField (.obj kvs) "find" with
    | some _ => .error ()
    | none => .ok (getField (.obj kvs) pname)
  | _ => .ok none

/-- The guarded text access `if (prop?._) { ... prop._.trim() ... }`:
`none` when the `_` field is absent or the empty string (falsy, skip);
the raw string when it is a non-empty string; an error when it is a
truthy non-string (`.trim` is not a function). -/
def textOf (p : JTree) : Except Unit (Option String) :=
  match getField p "_" with
  | none => .ok none
  | some (.str t) => .ok (if t == "" then none else some t)
  | some _ => .error ()

/-- Query handling of `extractRequestValues`: the second segment of
`fullPath.split("?")`, when non-empty, parsed with `URLSearchParams`;
each value passes the ignorability filter before entering the set. -/
def addQueryValues (values : List String) (fullPath : String) : List String :=
  match splitOnChar '?' fullPath.toList with
  | _ :: q :: _ =>
    if q ≠ [] then
      (queryParamValues q).foldl
        (fun acc val => if !isIgnorable val then setAdd acc val else acc) values
    else values
  | _ => values

/-- The argument list `sampler.elementProp?.collectionProp?.elementProp
|| []`, wrapped by `Array.isArray(args) ? args : [args]`. -/
def argListOf (sampler : JTree) : List JTree :=
  match ((getField sampler "elementProp").bind
      (fun e => getField e "collectionProp")).bind
      (fun c => getField c "elementProp") with
  | some v =>
    if truthy v then
      match v with
      | .arr l => l
      | x => [x]
    else []
  | none => []

/-- Processing of one argument: the whole (trimmed) value if it passes the
filter, then all pattern sub-matches unconditionally. -/
def processArg (values : List String) (arg : JTree) : Except Unit (List String) :=
  match findProp (getField arg "stringProp") "Argument.value" with
  | .error e => .error e
  | .ok none => .ok values
  | .ok (some valProp) =>
    match textOf valProp with
    | .error e => .error e
    | .ok none => .ok values
    | .ok (some raw) =>
      .ok (setAddAll
        (if jsTrim raw != "" && !isIgnorable (jsTrim raw)
          then setAdd values (jsTrim raw) else values)
        (extractLiterals (jsTrim raw)))

/-- `forEach` over the argument list. -/
def processArgs : List String → List JTree → Except Unit (List String)
  | values, [] => .ok values
  | values, a :: rest =>
    match processArg values a with
    | .error e => .error e
    | .ok values2 => processArgs values2 rest

/-- The path/query contribution of `extractRequestValues`: query values
(filtered), then path sub-matches (unconditional). -/
def pathValues (sampler : JTree) : Except Unit (List String) :=
  match findProp (getField sampler "stringProp") "HTTPSampler.path" with
  | .error e => .error e
  | .ok none => .ok []
  | .ok (some pathProp) =>
    match textOf pathProp with
    | .error e => .error e
    | .ok none => .ok []
    | .ok (some raw) =>
      .ok (setAddAll (addQueryValues [] (jsTrim raw)) (extractLiterals (jsTrim raw)))

/-- `extractRequestValues(sampler)`: query values (filtered), path
sub-matches (unconditional), then per argument the whole value (filtered)
and its sub-matches (unconditional); insertion order of a JavaScript
`Set`. -/
def extractRequestValues (sampler : JTree) : Except Unit (List String) :=
  match pathValues sampler with
  | .error e => .error e
  | .ok fromPath => processArgs fromPath (argListOf sampler)

/-!
## Sampler collection (`collectHTTPSamplers`) and the engine pipeline
-/

/-- One collected sampler before value extraction: its global order, the
resolved name value, and the sampler node itself. -/
structure RawSampler where
  order : Nat
  name : JTree
  node : JTree

/-- `s.$?.testname || "Sampler-<order>"` (a falsy name falls back). -/
def mkRawSampler (s : JTree) (ord : Nat) : RawSampler :=
  { order := ord
  , name :=
      match (getField s "$").bind (fun a => getField a "testname") with
      | some v => if truthy v then v else .str ("Sampler-" ++ toString ord)
      | none => .str ("Sampler-" ++ toString ord)
  , node := s }

/-- `Array.isArray(node.HTTPSamplerProxy) ? it : [it]`. -/
def samplerNodesOf : JTree → List JTree
  | .arr l => l
  | x => [x]

/-- The `samplers.forEach(s => { order.index++; result.push(...) })` step. -/
def collectFrom (v : JTree) (ord : Nat) : List RawSampler × Nat :=
  (samplerNodesOf v).foldl
    (fun acc s => (acc.1 ++ [mkRawSampler s (acc.2 + 1)], acc.2 + 1)) ([], ord)

mutual

/-- `collectHTTPSamplers(node, result, order)`: depth-first over every
field of every node, in key order; a truthy `HTTPSamplerProxy` field
contributes its samplers before the recursion into the fields. -/
def collectHTTPSamplers : JTree → Nat → List RawSampler × Nat
  | .str _, ord => ([], ord)
  | .obj kvs, ord =>
    match getField (.obj kvs) "HTTPSamplerProxy" with
    | some v =>
      if truthy v then
        ((collectFrom v ord).1 ++ (collectKVs kvs (collectFrom v ord).2).1,
          (collectKVs kvs (collectFrom v ord).2).2)
      else collectKVs kvs ord
    | none => collectKVs kvs ord
  | .arr l, ord => collectElems l ord

/-- `for (const key in node)` over an object's fields. -/
def collectKVs : List (String × JTree) → Nat → List RawSampler × Nat
  | [], ord => ([], ord)
  | (_, v) :: rest, ord =>
    ((collectHTTPSamplers v ord).1 ++ (collectKVs rest (collectHTTPSamplers v ord).2).1,
      (collectKVs rest (collectHTTPSamplers v ord).2).2)

/-- `for (const key in node)` over an array's elements. -/
def collectElems : List JTree → Nat → List RawSampler × Nat
  | [], ord => ([], ord)
  | t :: rest, ord =>
    ((collectHTTPSamplers t ord).1 ++ (collectElems rest (collectHTTPSamplers t ord).2).1,
      (collectElems rest (collectHTTPSamplers t ord).2).2)

end

/-- A collected sampler with its extracted request values
(`{ order, name, requestValues }`). -/
structure CSampler where
  order : Nat
  name : JTree
  requestValues : List String

/-- Value extraction over the collected sampler list. -/
def buildSamplers : List RawSampler → Except Unit (List CSampler)
  | [] => .ok []
  | r :: rest =>
    match extractRequestValues r.node with
    | .error e => .error e
    | .ok vs =>
      match buildSamplers rest with
      | .error e => .error e
      | .ok tail => .ok ({ order := r.order, name := r.name, requestValues := vs } :: tail)

/-- A value-index entry update: append the occurrence to the value's
entry, creating the entry on first sight (`Map` iteration order is
insertion order, modelled by an ordered association list). -/
def pushOccurrence (index : List (String × List Occurrence)) (v : String)
    (oc : Occurrence) : List (String × List Occurrence) :=
  if (index.find? (fun e => e.1 == v)).isSome then
    index.map (fun e => if e.1 == v then (e.1, e.2 ++ [oc]) else e)
  else index ++ [(v, [oc])]

/-- One `requestValues.forEach` step of `buildValueIndex`: ignorable
values are skipped. -/
def indexValue (index : List (String × List Occurrence)) (s : CSampler)
    (value : String) : List (String × List Occurrence) :=
  if isIgnorable value then index
  else pushOccurrence index value { samplerName := s.name, order := s.order }

/-- `buildValueIndex(samplers)`. -/
def buildValueIndex (samplers : List CSampler) : List (String × List Occurrence) :=
  samplers.foldl (fun index s => s.requestValues.foldl (fun i v => indexValue i s v) index) []

/-- A `CorrelationSuggestion` of the report. -/
structure CorrelationSuggestion where
  detectedValue : String
  valueType : String
  confidence : String
  usedInSamplers : List JTree
  recommendation : Recommendation

/-- `buildCorrelationSuggestions(index)`: one suggestion per index entry,
in index (= first-insertion) order. -/
def buildCorrelationSuggestions (index : List (String × List Occurrence)) :
    List CorrelationSuggestion :=
  index.map (fun e =>
    let confidence := calculateConfidence e.1 e.2
    let type := classifyValue e.1
    { detectedValue := e.1
      valueType := type
      confidence := confidence
      usedInSamplers := e.2.map (fun o => o.samplerName)
      recommendation := buildRecommendation e.1 type })

/-- The engine's report. -/
structure Report where
  jmxFile : String
  samplersScanned : Nat
  correlationCandidates : Nat
  suggestions : List CorrelationSuggestion

/-- The engine body of `analyzeJMXForCorrelation` after the document has
been located and parsed. -/
def analyzeJMXForCorrelation (doc : JTree) (jmxFile : String) : Except Unit Report :=
  match buildSamplers (collectHTTPSamplers doc 0).1 with
  | .error e => .error e
  | .ok samplers =>
    .ok { jmxFile := jmxFile
          samplersScanned := (collectHTTPSamplers doc 0).1.length
          correlationCandidates :=
            (buildCorrelationSuggestions (buildValueIndex samplers)).length
          suggestions := buildCorrelationSuggestions (buildValueIndex samplers) }

/-- The errors the entry point can surface. -/
inductive EngineError where
  | documentNotFound
  | typeError
deriving DecidableEq

/-- The entry point: `fs.existsSync` failure becomes
`documentNotFound`; otherwise the engine runs on the parsed tree. -/
def detectCorrelations : Option JTree → String → Except EngineError Report
  | none, _ => .error .documentNotFound
  | some doc, jmxFile => (analyzeJMXForCorrelation doc jmxFile).mapError (fun _ => .typeError)

/-!
## Well-formedness of `xml2js` output

`xml2js` stores character content under the `_` key and it is always a
string; `XmlLike` captures exactly that, which is what rules out the one
`TypeError` the engine could otherwise hit.
-/

mutual

/-- Every `_` field in the tree is a string leaf. -/
def XmlLike : JTree → Bool
  | .str _ => true
  | .obj kvs => XmlLikeKVs kvs
  | .arr l => XmlLikeElems l

/-- `XmlLike` over an object's fields. -/
def XmlLikeKVs : List (String × JTree) → Bool
  | [] => true
  | (k, v) :: rest => (k != "_" || v.isStr) && XmlLike v && XmlLikeKVs rest

/-- `XmlLike` over an array's elements. -/
def XmlLikeElems : List JTree → Bool
  | [] => true
  | t :: rest => XmlLike t && XmlLikeElems rest

end

mutual

/-- No object in the tree has a `find` field.  An XML element named
`find` inside a `stringProp` would shadow `Array.prototype.find` with a
non-callable node and make the optional call
`stringProp?.find?.(...)` raise a `TypeError`; JMeter emits no such
element. -/
def FindFree : JTree → Bool
  | .str _ => true
  | .obj kvs => FindFreeKVs kvs
  | .arr l => FindFreeElems l

/-- `FindFree` over an object's fields. -/
def FindFreeKVs : List (String × JTree) → Bool
  | [] => true
  | (k, v) :: rest => (k != "find") && FindFree v && FindFreeKVs rest

/-- `FindFree` over an array's elements. -/
def FindFreeElems : List JTree → Bool
  | [] => true
  | t :: rest => FindFree t && FindFreeElems rest

end

/-- A well-formed (`xml2js`-shaped) document whose sampler carries a
`<stringProp><find>x</find></stringProp>` child: the parsed `stringProp`
object then has a non-callable `find` property, and the engine's
`stringProp?.find?.(...)` raises a `TypeError` on it. -/
def docFindChild : JTree :=
  .obj [("jmeterTestPlan", .obj [("HTTPSamplerProxy",
    .obj [("$", .obj [("testname", .str "Odd")]),
          ("stringProp", .obj [("find", .str "oops")])])])]

/-!
## Spec-side classifier (for the refinement comparison of §4.5)

The specification's predicates are the §4.3 shape patterns anchored to
the whole value.  For UUID / NUMERIC_ID / GENERIC_DYNAMIC_VALUE these
coincide with the code's anchored regexes; the JWT pattern of §4.3
(`three dot-separated base64url segments beginning with "eyJ"`) differs
from the code's `startsWith("eyJ") && split(".").length === 3`.
-/

/-- A base64url-safe character (`A–Z a–z 0–9 - _`). -/
def isBase64UrlChar (c : Char) : Bool :=
  c.isAlphanum || c == '-' || c == '_'

/-- Modelled from the spec (§4.3/§4.5): the anchored JWT shape — the whole
value is three dot-separated non-empty base64url segments and begins with
`eyJ`. -/
def specLooksLikeJWT (v : String) : Bool :=
  strStartsWith v "eyJ" &&
    (match splitOnChar '.' v.toList with
     | [s1, s2, s3] => s1 ≠ [] && s2 ≠ [] && s3 ≠ [] && (s1 ++ s2 ++ s3).all isBase64UrlChar
     | _ => false)

/-- Modelled from the spec (§4.3): the canonical 8-4-4-4-12 hexadecimal
UUID shape, stated over the dash-split segments. -/
def specLooksLikeUUID (v : String) : Bool :=
  match splitOnChar '-' v.toList with
  | [g1, g2, g3, g4, g5] =>
    g1.length == 8 && g2.length == 4 && g3.length == 4 && g4.length == 4 &&
      g5.length == 12 && (g1 ++ g2 ++ g3 ++ g4 ++ g5).all isHexChar
  | _ => false

/-- Modelled from the spec (§4.5): first matching §4.3 predicate wins, in
the priority JWT → UUID → NUMERIC_ID → GENERIC_DYNAMIC_VALUE → UNKNOWN. -/
def specClassifyValue (value : String) : String :=
  if specLooksLikeJWT value then "JWT_TOKEN"
  else if specLooksLikeUUID value then "UUID"
  else if looksLikeNumericId value then "NUMERIC_ID"
  else if looksLikeAlphaNumeric value then "GENERIC_DYNAMIC_VALUE"
  else "UNKNOWN"

/-!
## Concrete scenario documents (as parsed by `xml2js`)
-/

/-- A `<stringProp name="pname">text</stringProp>` node. -/
def stringPropNode (pname text : String) : JTree :=
  .obj [("$", .obj [("name", .str pname)]), ("_", .str text)]

/-- The `elementProp` arguments block holding one `{name, value}` argument. -/
def argumentsBlock (aname avalue : String) : JTree :=
  .obj [("collectionProp", .obj [("elementProp",
    .obj [("stringProp",
      .arr [stringPropNode "Argument.name" aname, stringPropNode "Argument.value" avalue])])])]

/-- An HTTP sampler node with a name and one body/header argument. -/
def samplerWithArgument (tname aname avalue : String) : JTree :=
  .obj [("$", .obj [("testname", .str tname)]),
        ("elementProp", argumentsBlock aname avalue)]

/-- An HTTP sampler node with a name and a `HTTPSampler.path` property. -/
def samplerWithPath (tname pathText : String) : JTree :=
  .obj [("$", .obj [("testname", .str tname)]),
        ("stringProp", .arr [stringPropNode "HTTPSampler.method" "GET",
                             stringPropNode "HTTPSampler.path" pathText])]

/-- The §8 end-to-end document: "Login" with body argument
`token = "eyJabc.def.ghi"` and "GetProfile" with header argument
`Authorization = "eyJabc.def.ghi"`. -/
def docLoginProfile : JTree :=
  .obj [("jmeterTestPlan", .obj [("hashTree", .obj [("HTTPSamplerProxy",
    .arr [samplerWithArgument "Login" "token" "eyJabc.def.ghi",
          samplerWithArgument "GetProfile" "Authorization" "eyJabc.def.ghi"])])])]

/-- The JWT suggestion of the Login/GetProfile scenario — exactly the
one the claim describes. -/
def suggJwtLogin : CorrelationSuggestion :=
  { detectedValue := "eyJabc.def.ghi", valueType := "JWT_TOKEN", confidence := "HIGH",
    usedInSamplers := [.str "Login", .str "GetProfile"],
    recommendation :=
      { extractor := "Regex Extractor", variableName := "jwt_token",
        regex := some "eyJ[a-zA-Z0-9._-]+", jsonPath := none,
        usage := "Extract token from login response and use in Authorization header" } }

/-- The second suggestion the engine produces for the same scenario: the
alphanumeric sub-match `eyJabc` of the token. -/
def suggEyJabc : CorrelationSuggestion :=
  { detectedValue := "eyJabc", valueType := "GENERIC_DYNAMIC_VALUE", confidence := "LOW",
    usedInSamplers := [.str "Login", .str "GetProfile"],
    recommendation :=
      { extractor := "Regex / JSON Extractor", variableName := "dynamic_var",
        regex := none, jsonPath := none,
        usage := "Extract from previous response before reuse" } }

/-- What the engine actually reports for `docLoginProfile`: the claimed
JWT suggestion, plus a second one for the alphanumeric sub-match
`eyJabc` of the token. -/
def reportLoginProfile : Report :=
  { jmxFile := "login.jmx"
    samplersScanned := 2
    correlationCandidates := 2
    suggestions := [suggJwtLogin, suggEyJabc] }

/-- The §8 end-to-end document: one request with path
`/orders/123?status=true`. -/
def docOrders : JTree :=
  .obj [("jmeterTestPlan", .obj [("hashTree", .obj [("HTTPSamplerProxy",
    samplerWithPath "Get Order" "/orders/123?status=true")])])]

/-- What the engine actually reports for `docOrders`: the numeric `123`
and the query value `true` indeed yield nothing, but the alphanumeric
pattern extracts the path words `orders` and `status`. -/
def reportOrders : Report :=
  { jmxFile := "orders.jmx"
    samplersScanned := 1
    correlationCandidates := 2
    suggestions :=
      [{ detectedValue := "orders", valueType := "GENERIC_DYNAMIC_VALUE", confidence := "LOW",
         usedInSamplers := [.str "Get Order"],
         recommendation :=
           { extractor := "Regex / JSON Extractor", variableName := "dynamic_var",
             regex := none, jsonPath := none,
             usage := "Extract from previous response before reuse" } },
       { detectedValue := "status", valueType := "GENERIC_DYNAMIC_VALUE", confidence := "LOW",
         usedInSamplers := [.str "Get Order"],
         recommendation :=
           { extractor := "Regex / JSON Extractor", variableName := "dynamic_var",
             regex := none, jsonPath := none,
             usage := "Extract from previous response before reuse" } }] }

/-- A document whose single request carries a 16-digit numeric value. -/
def docNumericId16 : JTree :=
  .obj [("jmeterTestPlan", .obj [("hashTree", .obj [("HTTPSamplerProxy",
    samplerWithArgument "CreateOrder" "orderId" "1234567890123456")])])]

/-- What the engine actually reports for `docNumericId16`: the 16-digit
value exceeds the 6–14 digit NUMERIC_ID shape, so it classifies as
GENERIC_DYNAMIC_VALUE with confidence LOW. -/
def reportNumericId16 : Report :=
  { jmxFile := "numeric.jmx"
    samplersScanned := 1
    correlationCandidates := 1
    suggestions :=
      [{ detectedValue := "1234567890123456", valueType := "GENERIC_DYNAMIC_VALUE",
         confidence := "LOW",
         usedInSamplers := [.str "CreateOrder"],
         recommendation :=
           { extractor := "Regex / JSON Extractor", variableName := "dynamic_var",
             regex := none, jsonPath := none,
             usage := "Extract from previous response before reuse" } }] }

/-- A document whose sampler node has no name, no path, and no arguments:
every field degrades to its default. -/
def docDefaultsOnly : JTree :=
  .obj [("jmeterTestPlan", .obj [("HTTPSamplerProxy", .obj [])])]

/-- The collected samplers of `docLoginProfile` with their extracted
request values. -/
def samplersLoginProfile : List CSampler :=
  [{ order := 1, name := .str "Login", requestValues := ["eyJabc.def.ghi", "eyJabc"] },
   { order := 2, name := .str "GetProfile", requestValues := ["eyJabc.def.ghi", "eyJabc"] }]

/-- The valid zero-candidate report the engine returns for
`docDefaultsOnly` (one sampler, defaulted name, nothing extracted). -/
def reportDefaultsOnly : Report :=
  { jmxFile := "defaults.jmx", samplersScanned := 1, correlationCandidates := 0,
    suggestions := [] }

/-!
## Theorems

### End-to-end scenarios (C1, C3, C4) and determinism (C8)
-/

/-- C1, counterexample: on the Login/GetProfile document the engine's
report has two suggestions, not exactly one — the alphanumeric pattern
also extracts the sub-match `eyJabc` from the token. -/
theorem loginProfile_not_single_suggestion :
    analyzeJMXForCorrelation docLoginProfile "login.jmx" = .ok reportLoginProfile ∧
      reportLoginProfile.suggestions.length = 2 := ⟨rfl, rfl⟩

/-- C1, amended: the Login/GetProfile document yields exactly two
suggestions; the first is precisely the claimed one (`eyJabc.def.ghi`,
JWT_TOKEN, HIGH, used in Login then GetProfile, Regex Extractor), the
second is the stray alphanumeric sub-match `eyJabc`
(GENERIC_DYNAMIC_VALUE, LOW) from the same two samplers. -/
theorem loginProfile_report :
    analyzeJMXForCorrelation docLoginProfile "login.jmx" = .ok reportLoginProfile := rfl

/-- C3, counterexample: on the `/orders/123?status=true` document the
engine reports 2 correlation candidates, not 0 — the alphanumeric
pattern extracts the path words `orders` and `status`. -/
theorem orders_candidates_not_zero :
    analyzeJMXForCorrelation docOrders "orders.jmx" = .ok reportOrders ∧
      reportOrders.correlationCandidates = 2 := ⟨rfl, rfl⟩

/-- C3, amended: the `/orders/123?status=true` document yields exactly
two suggestions, for the path words `orders` and `status`, both
GENERIC_DYNAMIC_VALUE with confidence LOW; the 3-digit `123` and the
query value `true` yield none. -/
theorem orders_report :
    analyzeJMXForCorrelation docOrders "orders.jmx" = .ok reportOrders := rfl

/-- C4, counterexample: a 16-digit numeric value in exactly one request
yields a suggestion with valueType GENERIC_DYNAMIC_VALUE and confidence
LOW (not NUMERIC_ID / MEDIUM): 16 digits exceed the 6–14 digit shape. -/
theorem numericId16_report_generic_low :
    analyzeJMXForCorrelation docNumericId16 "numeric.jmx" = .ok reportNumericId16 ∧
      reportNumericId16.suggestions.map
        (fun s => (s.detectedValue, s.valueType, s.confidence)) =
        [("1234567890123456", "GENERIC_DYNAMIC_VALUE", "LOW")] := ⟨rfl, rfl⟩

/-- C8: the engine is deterministic — two invocations on the same
document produce the same report, field for field. -/
theorem engine_deterministic (doc : Option JTree) (jmxFile : String) (r₁ r₂ : Report)
    (h₁ : detectCorrelations doc jmxFile = .ok r₁)
    (h₂ : detectCorrelations doc jmxFile = .ok r₂) :
    r₁.samplersScanned = r₂.samplersScanned ∧
      r₁.correlationCandidates = r₂.correlationCandidates ∧
      r₁.suggestions = r₂.suggestions ∧ r₁ = r₂ := by
  have h : r₁ = r₂ := by
    have := h₁.symm.trans h₂
    exact Except.ok.inj this
  exact ⟨by rw [h], by rw [h], by rw [h], h⟩

/-- C8, witness: determinism instantiated on the Login/GetProfile
document. -/
theorem engine_deterministic_witness :
    reportLoginProfile.samplersScanned = reportLoginProfile.samplersScanned ∧
      reportLoginProfile.correlationCandidates = reportLoginProfile.correlationCandidates ∧
      reportLoginProfile.suggestions = reportLoginProfile.suggestions ∧
      reportLoginProfile = reportLoginProfile :=
  engine_deterministic (some docLoginProfile) "login.jmx" reportLoginProfile reportLoginProfile
    rfl rfl

/-!
### Confidence scoring (C6)
-/

/-- C6: `calculateConfidence` returns HIGH when there are at least 3
occurrences or the value classifies as JWT_TOKEN or UUID, otherwise
MEDIUM when it classifies as NUMERIC_ID, otherwise LOW. -/
theorem calculateConfidence_rule (value : String) (occurrences : List Occurrence) :
    calculateConfidence value occurrences =
      if 3 ≤ occurrences.length ∨ classifyValue value = "JWT_TOKEN" ∨
          classifyValue value = "UUID" then "HIGH"
      else if classifyValue value = "NUMERIC_ID" then "MEDIUM"
      else "LOW" := by
  unfold calculateConfidence classifyValue
  by_cases h3 : 3 ≤ occurrences.length <;>
    by_cases hj : looksLikeJWT value <;>
      by_cases hu : looksLikeUUID value <;>
        by_cases hn : looksLikeNumericId value <;>
          by_cases ha : looksLikeAlphaNumeric value <;>
            simp [h3, hj, hu, hn, ha]

/-!
### Split lemmas and the classifier priority (C5)
-/

theorem splitOnChar_ne_nil (sep : Char) (l : List Char) : splitOnChar sep l ≠ [] := by
  induction l with
  | nil => simp [splitOnChar]
  | cons c rest ih =>
    by_cases h : c = sep
    · simp [splitOnChar, h]
    · simp only [splitOnChar, beq_iff_eq, h, if_false]
      cases hs : splitOnChar sep rest with
      | nil => simp
      | cons a as => simp

theorem length_splitOnChar (sep : Char) (l : List Char) :
    (splitOnChar sep l).length = l.count sep + 1 := by
  induction l with
  | nil => simp [splitOnChar]
  | cons c rest ih =>
    by_cases h : c = sep
    · subst h
      simp [splitOnChar, List.count_cons_self, ih]
    · simp only [splitOnChar, beq_iff_eq, h, if_false]
      cases hs : splitOnChar sep rest with
      | nil => exact absurd hs (splitOnChar_ne_nil sep rest)
      | cons a as =>
        rw [hs] at ih
        simp only [List.length_cons] at ih ⊢
        rw [List.count_cons_of_ne (fun he => h he.symm)]
        omega

theorem splitOnChar_append (sep : Char) (a : List Char) (h : ∀ c ∈ a, ¬ c = sep)
    (b : List Char) : splitOnChar sep (a ++ sep :: b) = a :: splitOnChar sep b := by
  induction a with
  | nil => simp [splitOnChar]
  | cons c a2 ih =>
    have hc : ¬ c = sep := h c (by simp)
    have ih2 := ih (fun x hx => h x (by simp [hx]))
    simp only [List.cons_append, splitOnChar, beq_iff_eq, hc, if_false]
    rw [show a2 ++ sep :: b = a2.append (sep :: b) from rfl] at ih2
    rw [ih2]

theorem splitOnChar_of_not_mem (sep : Char) (a : List Char) (h : ∀ c ∈ a, ¬ c = sep) :
    splitOnChar sep a = [a] := by
  induction a with
  | nil => simp [splitOnChar]
  | cons c a2 ih =>
    have hc : ¬ c = sep := h c (by simp)
    have ih2 := ih (fun x hx => h x (by simp [hx]))
    simp only [splitOnChar, beq_iff_eq, hc, if_false]
    rw [ih2]

theorem splitOnChar_inv (sep : Char) (l : List Char) (g : List Char) (gs : List (List Char))
    (hsplit : splitOnChar sep l = g :: gs) :
    (∀ c ∈ g, ¬ c = sep) ∧
      (gs = [] → l = g) ∧
      (∀ g2 gs2, gs = g2 :: gs2 → ∃ l2, l = g ++ sep :: l2 ∧ splitOnChar sep l2 = g2 :: gs2) := by
  induction l generalizing g gs with
  | nil =>
    simp [splitOnChar] at hsplit
    obtain ⟨hg, hgs⟩ := hsplit
    subst hg; subst hgs
    refine ⟨by simp, fun _ => rfl, fun g2 gs2 hx => by simp at hx⟩
  | cons c rest ih =>
    by_cases h : c = sep
    · subst h
      simp only [splitOnChar, beq_self_eq_true, if_true] at hsplit
      obtain ⟨hg, hgs⟩ := List.cons.inj hsplit
      subst hg
      refine ⟨by simp, ?_, ?_⟩
      · intro h0
        exact absurd (hgs.trans h0) (splitOnChar_ne_nil c rest)
      · intro g2 gs2 hx
        exact ⟨rest, by simp, by rw [hgs, hx]⟩
    · simp only [splitOnChar, beq_iff_eq, h, if_false] at hsplit
      cases hs : splitOnChar sep rest with
      | nil => exact absurd hs (splitOnChar_ne_nil sep rest)
      | cons a as =>
        rw [hs] at hsplit
        obtain ⟨hg, hgs⟩ := List.cons.inj hsplit
        obtain ⟨ha, hb, hc2⟩ := ih a as hs
        subst hg
        refine ⟨?_, ?_, ?_⟩
        · intro x hx
          rcases List.mem_cons.mp hx with hx | hx
          · subst hx; exact h
          · exact ha x hx
        · intro h0
          rw [hb (hgs.trans h0)]
        · intro g2 gs2 hx
          obtain ⟨l2, hl2, hsp⟩ := hc2 g2 gs2 (hgs.trans hx)
          exact ⟨l2, by rw [hl2]; simp, hsp⟩

theorem isHexChar_ne_dash {c : Char} (h : isHexChar c = true) : ¬ c = '-' := by
  intro he
  subst he
  simp [isHexChar] at h

theorem hexGroup_eq_some {n : Nat} {l r : List Char} :
    hexGroup n l = some r ↔
      ((l.take n).length = n ∧ (l.take n).all isHexChar = true ∧ r = l.drop n) := by
  unfold hexGroup
  by_cases h : ((l.take n).length == n && (l.take n).all isHexChar) = true
  · obtain ⟨h1, h2⟩ := Bool.and_eq_true_iff.mp h
    simp only [h, if_true]
    constructor
    · intro hr
      exact ⟨beq_iff_eq.mp h1, h2, (Option.some.inj hr).symm⟩
    · intro ⟨_, _, hr⟩
      rw [hr]
  · simp only [h, if_false]
    constructor
    · intro hr; exact absurd hr (by simp)
    · intro ⟨h1, h2, _⟩
      exact absurd (by rw [Bool.and_eq_true_iff]; exact ⟨beq_iff_eq.mpr h1, h2⟩) h

theorem dashChar_eq_some {l r : List Char} :
    dashChar l = some r ↔ l = '-' :: r := by
  cases l with
  | nil => simp [dashChar]
  | cons c rest =>
    show (if c = '-' then some rest else none) = some r ↔ c :: rest = '-' :: r
    by_cases h : c = '-'
    · subst h; simp
    · simp [h]


theorem uuidChain_some {l r : List Char} (h : uuidChain l = some r) :
    ∃ g1 g2 g3 g4 g5 : List Char,
      l = g1 ++ '-' :: (g2 ++ '-' :: (g3 ++ '-' :: (g4 ++ '-' :: (g5 ++ r)))) ∧
        g1.length = 8 ∧ g2.length = 4 ∧ g3.length = 4 ∧ g4.length = 4 ∧ g5.length = 12 ∧
        g1.all isHexChar = true ∧ g2.all isHexChar = true ∧ g3.all isHexChar = true ∧
        g4.all isHexChar = true ∧ g5.all isHexChar = true := by
  unfold uuidChain at h
  cases h1 : hexGroup 8 l with
  | none => rw [h1, Option.none_bind] at h; simp at h
  | some r1 =>
  rw [h1, Option.some_bind] at h
  cases h2 : dashChar r1 with
  | none => rw [h2, Option.none_bind] at h; simp at h
  | some r2 =>
  rw [h2, Option.some_bind] at h
  cases h3 : hexGroup 4 r2 with
  | none => rw [h3, Option.none_bind] at h; simp at h
  | some r3 =>
  rw [h3, Option.some_bind] at h
  cases h4 : dashChar r3 with
  | none => rw [h4, Option.none_bind] at h; simp at h
  | some r4 =>
  rw [h4, Option.some_bind] at h
  cases h5 : hexGroup 4 r4 with
  | none => rw [h5, Option.none_bind] at h; simp at h
  | some r5 =>
  rw [h5, Option.some_bind] at h
  cases h6 : dashChar r5 with
  | none => rw [h6, Option.none_bind] at h; simp at h
  | some r6 =>
  rw [h6, Option.some_bind] at h
  cases h7 : hexGroup 4 r6 with
  | none => rw [h7, Option.none_bind] at h; simp at h
  | some r7 =>
  rw [h7, Option.some_bind] at h
  cases h8 : dashChar r7 with
  | none => rw [h8, Option.none_bind] at h; simp at h
  | some r8 =>
  rw [h8, Option.some_bind] at h
  obtain ⟨e1a, e1b, e1c⟩ := hexGroup_eq_some.mp h1
  obtain ⟨e3a, e3b, e3c⟩ := hexGroup_eq_some.mp h3
  obtain ⟨e5a, e5b, e5c⟩ := hexGroup_eq_some.mp h5
  obtain ⟨e7a, e7b, e7c⟩ := hexGroup_eq_some.mp h7
  obtain ⟨e9a, e9b, e9c⟩ := hexGroup_eq_some.mp h
  have d2 := dashChar_eq_some.mp h2
  have d4 := dashChar_eq_some.mp h4
  have d6 := dashChar_eq_some.mp h6
  have d8 := dashChar_eq_some.mp h8
  refine ⟨l.take 8, r2.take 4, r4.take 4, r6.take 4, r8.take 12,
    ?_, e1a, e3a, e5a, e7a, e9a, e1b, e3b, e5b, e7b, e9b⟩
  have hl : l = l.take 8 ++ r1 := by rw [e1c]; exact (List.take_append_drop 8 l).symm
  have hr2 : r2 = r2.take 4 ++ r3 := by rw [e3c]; exact (List.take_append_drop 4 r2).symm
  have hr4 : r4 = r4.take 4 ++ r5 := by rw [e5c]; exact (List.take_append_drop 4 r4).symm
  have hr6 : r6 = r6.take 4 ++ r7 := by rw [e7c]; exact (List.take_append_drop 4 r6).symm
  have hr8 : r8 = r8.take 12 ++ r := by rw [e9c]; exact (List.take_append_drop 12 r8).symm
  have k6 : r6 = r6.take 4 ++ '-' :: (r8.take 12 ++ r) := by
    conv_lhs => rw [hr6, d8, hr8]
  have k4 : r4 = r4.take 4 ++ '-' :: (r6.take 4 ++ '-' :: (r8.take 12 ++ r)) := by
    conv_lhs => rw [hr4, d6, k6]
  have k2 : r2 = r2.take 4 ++ '-' :: (r4.take 4 ++ '-' :: (r6.take 4 ++ '-' :: (r8.take 12 ++ r))) := by
    conv_lhs => rw [hr2, d4, k4]
  conv_lhs => rw [hl, d2, k2]

theorem uuidChain_build {g1 g2 g3 g4 g5 rest : List Char}
    (n1 : g1.length = 8) (n2 : g2.length = 4) (n3 : g3.length = 4) (n4 : g4.length = 4)
    (n5 : g5.length = 12)
    (x1 : g1.all isHexChar = true) (x2 : g2.all isHexChar = true)
    (x3 : g3.all isHexChar = true) (x4 : g4.all isHexChar = true)
    (x5 : g5.all isHexChar = true) :
    uuidChain (g1 ++ '-' :: (g2 ++ '-' :: (g3 ++ '-' :: (g4 ++ '-' :: (g5 ++ rest))))) =
      some rest := by
  have e1 : hexGroup 8 (g1 ++ '-' :: (g2 ++ '-' :: (g3 ++ '-' :: (g4 ++ '-' :: (g5 ++ rest))))) =
      some ('-' :: (g2 ++ '-' :: (g3 ++ '-' :: (g4 ++ '-' :: (g5 ++ rest))))) :=
    hexGroup_eq_some.mpr ⟨by rw [List.take_left' n1, n1], by rw [List.take_left' n1]; exact x1,
      by rw [List.drop_left' n1]⟩
  have e3 : hexGroup 4 (g2 ++ '-' :: (g3 ++ '-' :: (g4 ++ '-' :: (g5 ++ rest)))) =
      some ('-' :: (g3 ++ '-' :: (g4 ++ '-' :: (g5 ++ rest)))) :=
    hexGroup_eq_some.mpr ⟨by rw [List.take_left' n2, n2], by rw [List.take_left' n2]; exact x2,
      by rw [List.drop_left' n2]⟩
  have e5 : hexGroup 4 (g3 ++ '-' :: (g4 ++ '-' :: (g5 ++ rest))) =
      some ('-' :: (g4 ++ '-' :: (g5 ++ rest))) :=
    hexGroup_eq_some.mpr ⟨by rw [List.take_left' n3, n3], by rw [List.take_left' n3]; exact x3,
      by rw [List.drop_left' n3]⟩
  have e7 : hexGroup 4 (g4 ++ '-' :: (g5 ++ rest)) = some ('-' :: (g5 ++ rest)) :=
    hexGroup_eq_some.mpr ⟨by rw [List.take_left' n4, n4], by rw [List.take_left' n4]; exact x4,
      by rw [List.drop_left' n4]⟩
  have e9 : hexGroup 12 (g5 ++ rest) = some rest :=
    hexGroup_eq_some.mpr ⟨by rw [List.take_left' n5, n5], by rw [List.take_left' n5]; exact x5,
      by rw [List.drop_left' n5]⟩
  unfold uuidChain
  rw [e1, Option.some_bind, dashChar_eq_some.mpr rfl, Option.some_bind, e3, Option.some_bind,
    dashChar_eq_some.mpr rfl, Option.some_bind, e5, Option.some_bind,
    dashChar_eq_some.mpr rfl, Option.some_bind, e7, Option.some_bind,
    dashChar_eq_some.mpr rfl, Option.some_bind, e9]

/-- The code's chained anchored UUID check coincides with the §4.3
description stated over dash-split segments. -/
theorem looksLikeUUID_eq_spec (v : String) : looksLikeUUID v = specLooksLikeUUID v := by
  rw [Bool.eq_iff_iff]
  constructor
  · intro h
    unfold looksLikeUUID at h
    cases hch : uuidChain v.toList with
    | none => rw [hch] at h; simp at h
    | some r =>
      rw [hch] at h
      cases hr : r with
      | cons a as => rw [hr] at h; simp at h
      | nil =>
      subst hr
      obtain ⟨g1, g2, g3, g4, g5, hl, n1, n2, n3, n4, n5, x1, x2, x3, x4, x5⟩ :=
        uuidChain_some hch
      rw [List.append_nil] at hl
      have nd1 : ∀ c ∈ g1, ¬ c = '-' :=
        fun c hc => isHexChar_ne_dash (List.all_eq_true.mp x1 c hc)
      have nd2 : ∀ c ∈ g2, ¬ c = '-' :=
        fun c hc => isHexChar_ne_dash (List.all_eq_true.mp x2 c hc)
      have nd3 : ∀ c ∈ g3, ¬ c = '-' :=
        fun c hc => isHexChar_ne_dash (List.all_eq_true.mp x3 c hc)
      have nd4 : ∀ c ∈ g4, ¬ c = '-' :=
        fun c hc => isHexChar_ne_dash (List.all_eq_true.mp x4 c hc)
      have nd5 : ∀ c ∈ g5, ¬ c = '-' :=
        fun c hc => isHexChar_ne_dash (List.all_eq_true.mp x5 c hc)
      have hsplit : splitOnChar '-' v.toList = [g1, g2, g3, g4, g5] := by
        rw [hl, splitOnChar_append '-' g1 nd1, splitOnChar_append '-' g2 nd2,
          splitOnChar_append '-' g3 nd3, splitOnChar_append '-' g4 nd4,
          splitOnChar_of_not_mem '-' g5 nd5]
      unfold specLooksLikeUUID
      rw [hsplit]
      simp [n1, n2, n3, n4, n5, List.all_append, x1, x2, x3, x4, x5]
  · intro h
    unfold specLooksLikeUUID at h
    cases hsplit : splitOnChar '-' v.toList with
    | nil => exact absurd hsplit (splitOnChar_ne_nil _ _)
    | cons g1 gs1 =>
    rw [hsplit] at h
    match gs1, h with
    | [g2, g3, g4, g5], h =>
    simp only [Bool.and_eq_true, beq_iff_eq] at h
    obtain ⟨⟨⟨⟨⟨n1, n2⟩, n3⟩, n4⟩, n5⟩, hx⟩ := h
    simp only [List.all_append, Bool.and_eq_true] at hx
    obtain ⟨⟨⟨⟨x1, x2⟩, x3⟩, x4⟩, x5⟩ := hx
    obtain ⟨_, _, hc1⟩ := splitOnChar_inv '-' v.toList g1 [g2, g3, g4, g5] hsplit
    obtain ⟨l1, hL1, hs1⟩ := hc1 g2 [g3, g4, g5] rfl
    obtain ⟨_, _, hc2⟩ := splitOnChar_inv '-' l1 g2 [g3, g4, g5] hs1
    obtain ⟨l2, hL2, hs2⟩ := hc2 g3 [g4, g5] rfl
    obtain ⟨_, _, hc3⟩ := splitOnChar_inv '-' l2 g3 [g4, g5] hs2
    obtain ⟨l3, hL3, hs3⟩ := hc3 g4 [g5] rfl
    obtain ⟨_, _, hc4⟩ := splitOnChar_inv '-' l3 g4 [g5] hs3
    obtain ⟨l4, hL4, hs4⟩ := hc4 g5 [] rfl
    obtain ⟨_, hE, _⟩ := splitOnChar_inv '-' l4 g5 [] hs4
    have hg5 : l4 = g5 := hE rfl
    have hfull : v.toList = g1 ++ '-' :: (g2 ++ '-' :: (g3 ++ '-' :: (g4 ++ '-' :: (g5 ++ [])))) := by
      rw [hL1, hL2, hL3, hL4, hg5, List.append_nil]
    unfold looksLikeUUID
    rw [hfull, uuidChain_build n1 n2 n3 n4 n5 x1 x2 x3 x4 x5]

/-- The code's JWT test `split(".").length === 3` is exactly "contains
two dots". -/
theorem looksLikeJWT_eq_dotCount (v : String) :
    looksLikeJWT v = (strStartsWith v "eyJ" && v.toList.count '.' == 2) := by
  unfold looksLikeJWT
  rw [length_splitOnChar]
  congr 1
  rw [Bool.eq_iff_iff]
  simp only [beq_iff_eq]
  omega

/-- C5, counterexample: on `"eyJa!b.c.d"` the code classifies JWT_TOKEN
(it checks only the `eyJ` prefix and the dot count), while the §4.3
anchored shape patterns of the claim classify UNKNOWN (`!` is not a
base64url character, and no other pattern matches). -/
theorem classify_vs_spec_pattern_diverges :
    classifyValue "eyJa!b.c.d" = "JWT_TOKEN" ∧
      specClassifyValue "eyJa!b.c.d" = "UNKNOWN" ∧
      classifyValue "eyJa!b.c.d" ≠ specClassifyValue "eyJa!b.c.d" :=
  ⟨rfl, rfl, by decide⟩

/-- C5, amended: `classifyValue` is the first-match priority
JWT → UUID → NUMERIC_ID → GENERIC_DYNAMIC_VALUE → UNKNOWN where UUID,
NUMERIC_ID and GENERIC_DYNAMIC_VALUE are the anchored §4.3 shapes
(UUID stated over dash-split segments), but the JWT predicate is only
"starts with `eyJ` and contains exactly two dots" — no character-class
or segment-shape check. -/
theorem classifyValue_priority_order (value : String) :
    classifyValue value =
      (if strStartsWith value "eyJ" && value.toList.count '.' == 2 then "JWT_TOKEN"
       else if specLooksLikeUUID value then "UUID"
       else if looksLikeNumericId value then "NUMERIC_ID"
       else if looksLikeAlphaNumeric value then "GENERIC_DYNAMIC_VALUE"
       else "UNKNOWN") := by
  unfold classifyValue
  rw [looksLikeJWT_eq_dotCount, looksLikeUUID_eq_spec]

/-- A string of 16 digits starts with a digit, so not with `eyJ`. -/
theorem sixteenDigit_not_jwt {v : String} (hlen : v.toList.length = 16)
    (hdig : v.toList.all Char.isDigit = true) : looksLikeJWT v = false := by
  unfold looksLikeJWT
  cases hc : strStartsWith v "eyJ" with
  | false => rw [Bool.false_and]
  | true =>
    exfalso
    rw [strStartsWith, beq_iff_eq] at hc
    have he : ("eyJ" : String).toList = ['e', 'y', 'J'] := rfl
    rw [he] at hc
    cases hL : v.toList with
    | nil => rw [hL] at hlen; simp at hlen
    | cons c rest =>
      rw [hL] at hc
      simp only [List.length_cons, List.take_succ_cons, List.cons.injEq] at hc
      rw [hL] at hdig
      simp only [List.all_cons, Bool.and_eq_true] at hdig
      rw [hc.1] at hdig
      simp [Char.isDigit] at hdig

/-- A string of 16 digits contains no dash, so it is not a UUID. -/
theorem sixteenDigit_not_uuid {v : String}
    (hdig : v.toList.all Char.isDigit = true) : looksLikeUUID v = false := by
  unfold looksLikeUUID
  cases hch : uuidChain v.toList with
  | none => rfl
  | some r =>
    exfalso
    obtain ⟨g1, _, _, _, _, hl, _, _, _, _, _, _, _, _, _, _⟩ := uuidChain_some hch
    have hmem : '-' ∈ v.toList := by
      rw [hl]
      exact List.mem_append_right _ (List.mem_cons_self _ _)
    have := List.all_eq_true.mp hdig '-' hmem
    simp [Char.isDigit] at this

/-- C4, amended: a 16-digit numeric value exceeds the 6–14 digit
NUMERIC_ID shape; it classifies as GENERIC_DYNAMIC_VALUE, with
confidence LOW when it occurs in a single request and HIGH when it
occurs in 3 distinct requests. -/
theorem sixteen_digit_classification (v : String) (hlen : v.toList.length = 16)
    (hdig : v.toList.all Char.isDigit = true) :
    classifyValue v = "GENERIC_DYNAMIC_VALUE" ∧
      (∀ occs : List Occurrence, occs.length = 1 → calculateConfidence v occs = "LOW") ∧
      (∀ occs : List Occurrence, occs.length = 3 → calculateConfidence v occs = "HIGH") := by
  have hjwt := sixteenDigit_not_jwt hlen hdig
  have huuid := sixteenDigit_not_uuid hdig
  have hnum : looksLikeNumericId v = false := by
    unfold looksLikeNumericId
    rw [hlen]
    simp
  have halnum : looksLikeAlphaNumeric v = true := by
    unfold looksLikeAlphaNumeric
    rw [hlen]
    simp only [Bool.and_eq_true, List.all_eq_true, decide_eq_true_eq]
    refine ⟨by omega, ?_⟩
    intro c hc
    have := List.all_eq_true.mp hdig c hc
    simp [Char.isAlphanum, this]
  refine ⟨?_, ?_, ?_⟩
  · unfold classifyValue
    rw [hjwt, huuid, hnum, halnum]
    simp
  · intro occs hocc
    unfold calculateConfidence
    rw [hocc, hjwt, huuid, hnum]
    simp
  · intro occs hocc
    unfold calculateConfidence
    rw [hocc]
    simp

/-- C4, witness: the amended classification at the concrete value
`"1234567890123456"` with concrete occurrence lists of length 1 and 3. -/
theorem sixteen_digit_classification_witness :
    classifyValue "1234567890123456" = "GENERIC_DYNAMIC_VALUE" ∧
      calculateConfidence "1234567890123456" [⟨.str "CreateOrder", 1⟩] = "LOW" ∧
      calculateConfidence "1234567890123456"
        [⟨.str "A", 1⟩, ⟨.str "B", 2⟩, ⟨.str "C", 3⟩] = "HIGH" := by
  obtain ⟨h1, h2, h3⟩ :=
    sixteen_digit_classification "1234567890123456" (by decide) (by decide)
  exact ⟨h1, h2 _ rfl, h3 _ rfl⟩

/-!
### The ignorability invariant (C2)
-/

theorem pushOccurrence_keys_prop {P : String → Prop} {index : List (String × List Occurrence)}
    {v : String} {oc : Occurrence} (hidx : ∀ e ∈ index, P e.1) (hv : P v) :
    ∀ e ∈ pushOccurrence index v oc, P e.1 := by
  intro e he
  unfold pushOccurrence at he
  by_cases hf : (index.find? (fun e => e.1 == v)).isSome
  · rw [if_pos hf] at he
    obtain ⟨e2, he2, hee⟩ := List.mem_map.mp he
    have := hidx e2 he2
    by_cases hk : e2.1 == v
    · rw [if_pos hk] at hee
      rw [← hee]
      exact this
    · rw [if_neg hk] at hee
      rw [← hee]
      exact this
  · rw [if_neg hf] at he
    rcases List.mem_append.mp he with hm | hm
    · exact hidx e hm
    · simp only [List.mem_singleton] at hm
      rw [hm]
      exact hv

theorem indexValue_keys_nonignorable {index : List (String × List Occurrence)} {s : CSampler}
    {v : String} (hidx : ∀ e ∈ index, isIgnorable e.1 = false) :
    ∀ e ∈ indexValue index s v, isIgnorable e.1 = false := by
  unfold indexValue
  by_cases hig : isIgnorable v
  · rw [if_pos hig]
    exact hidx
  · rw [if_neg hig]
    have hig2 : isIgnorable v = false := by
      cases hb : isIgnorable v
      · rfl
      · exact absurd hb hig
    exact pushOccurrence_keys_prop (P := fun x => isIgnorable x = false) hidx hig2

theorem foldl_indexValue_keys_nonignorable (vs : List String) (s : CSampler) :
    ∀ index, (∀ e ∈ index, isIgnorable e.1 = false) →
      ∀ e ∈ vs.foldl (fun i v => indexValue i s v) index, isIgnorable e.1 = false := by
  induction vs with
  | nil => intro index hidx; exact hidx
  | cons v rest ih =>
    intro index hidx
    exact ih (indexValue index s v) (indexValue_keys_nonignorable hidx)

theorem buildValueIndex_keys_nonignorable (samplers : List CSampler) :
    ∀ e ∈ buildValueIndex samplers, isIgnorable e.1 = false := by
  unfold buildValueIndex
  have main : ∀ index, (∀ e ∈ index, isIgnorable e.1 = false) →
      ∀ e ∈ samplers.foldl
        (fun index s => s.requestValues.foldl (fun i v => indexValue i s v) index) index,
        isIgnorable e.1 = false := by
    induction samplers with
    | nil => intro index hidx; exact hidx
    | cons s rest ih =>
      intro index hidx
      exact ih _ (foldl_indexValue_keys_nonignorable s.requestValues s index hidx)
  exact main [] (by intro e he; simp at he)

theorem mem_buildCorrelationSuggestions {index : List (String × List Occurrence)}
    {s : CorrelationSuggestion} (h : s ∈ buildCorrelationSuggestions index) :
    ∃ e ∈ index, s.detectedValue = e.1 := by
  unfold buildCorrelationSuggestions at h
  obtain ⟨e, he, hee⟩ := List.mem_map.mp h
  exact ⟨e, he, by rw [← hee]⟩

theorem analyze_ok_inv {doc : JTree} {jmx : String} {r : Report}
    (h : analyzeJMXForCorrelation doc jmx = .ok r) :
    ∃ samplers, buildSamplers (collectHTTPSamplers doc 0).1 = .ok samplers ∧
      r = { jmxFile := jmx
            samplersScanned := (collectHTTPSamplers doc 0).1.length
            correlationCandidates :=
              (buildCorrelationSuggestions (buildValueIndex samplers)).length
            suggestions := buildCorrelationSuggestions (buildValueIndex samplers) } := by
  unfold analyzeJMXForCorrelation at h
  cases hb : buildSamplers (collectHTTPSamplers doc 0).1 with
  | error e => rw [hb] at h; exact absurd h (by simp)
  | ok samplers =>
    rw [hb] at h
    exact ⟨samplers, rfl, (Except.ok.inj h).symm⟩

theorem isIgnorable_false_elim {value : String} (h : isIgnorable value = false) :
    ¬ value.length < 4 ∧ value ≠ "true" ∧ value ≠ "false" ∧
      strStartsWith value "$\x7b" = false := by
  unfold isIgnorable at h
  split_ifs at h with h1 h2 h3 h4
  refine ⟨h4, ?_, ?_, Bool.not_eq_true _ ▸ h2⟩
  · intro he
    exact h3 (by rw [he]; decide)
  · intro he
    exact h3 (by rw [he]; decide)

/-- C2: no suggestion of any report carries a detected value of length
less than 4, equal to `"true"`/`"false"`, or beginning with the
parameter-substitution opener. -/
theorem report_values_never_ignorable (doc : JTree) (jmx : String) (r : Report)
    (h : detectCorrelations (some doc) jmx = .ok r) :
    ∀ s ∈ r.suggestions,
      ¬ s.detectedValue.length < 4 ∧ s.detectedValue ≠ "true" ∧
        s.detectedValue ≠ "false" ∧ strStartsWith s.detectedValue "$\x7b" = false := by
  intro s hs
  have ha : analyzeJMXForCorrelation doc jmx = .ok r := by
    simp only [detectCorrelations] at h
    cases hx : analyzeJMXForCorrelation doc jmx with
    | error e => rw [hx] at h; simp [Except.mapError] at h
    | ok r2 =>
      rw [hx] at h
      have h2 : r2 = r := Except.ok.inj h
      rw [← h2]
  obtain ⟨samplers, _, hr⟩ := analyze_ok_inv ha
  rw [hr] at hs
  obtain ⟨e, he, hv⟩ := mem_buildCorrelationSuggestions hs
  rw [hv]
  exact isIgnorable_false_elim (buildValueIndex_keys_nonignorable samplers e he)

/-- C2, witness: the invariant instantiated at the JWT suggestion of the
Login/GetProfile report. -/
theorem report_values_never_ignorable_witness :
    ¬ suggJwtLogin.detectedValue.length < 4 ∧ suggJwtLogin.detectedValue ≠ "true" ∧
      suggJwtLogin.detectedValue ≠ "false" ∧
      strStartsWith suggJwtLogin.detectedValue "$\x7b" = false :=
  report_values_never_ignorable docLoginProfile "login.jmx" reportLoginProfile rfl
    suggJwtLogin (by simp [reportLoginProfile])

/-!
### Soundness of the pattern scanners (C10)
-/

theorem length_takeWhile_le (p : Char → Bool) (l : List Char) :
    (l.takeWhile p).length ≤ l.length := by
  induction l with
  | nil => simp
  | cons c rest ih =>
    rw [List.takeWhile_cons]
    by_cases h : p c
    · simp only [if_pos h, List.length_cons]
      omega
    · simp [h]

theorem takeWhile_head {p : Char → Bool} {l : List Char}
    (h : 1 ≤ (l.takeWhile p).length) : ∃ c l2, l = c :: l2 ∧ p c = true := by
  cases l with
  | nil => simp at h
  | cons c l2 =>
    refine ⟨c, l2, rfl, ?_⟩
    by_cases hp : p c
    · exact hp
    · rw [List.takeWhile_cons, if_neg (by simp [hp])] at h
      simp at h

/-- Every literal reported by `execScanF` is a `take` of a successful
match position. -/
theorem execScanF_sound {matchAt : Option Char → List Char → Option Nat} {P : List Char → Prop}
    (hP : ∀ prevc cs k, matchAt prevc cs = some k → P (cs.take (k + 1))) :
    ∀ (fuel : Nat) (prevc : Option Char) (cs : List Char),
      ∀ m ∈ execScanF matchAt fuel prevc cs, P m := by
  intro fuel
  induction fuel with
  | zero => intro prevc cs m hm; simp [execScanF] at hm
  | succ f ih =>
    intro prevc cs m hm
    cases cs with
    | nil => simp [execScanF] at hm
    | cons c rest =>
      simp only [execScanF] at hm
      cases hmt : matchAt prevc (c :: rest) with
      | none => rw [hmt] at hm; exact ih _ _ m hm
      | some k =>
        rw [hmt] at hm
        rcases List.mem_cons.mp hm with hh | ht
        · rw [hh]; exact hP _ _ _ hmt
        · exact ih _ _ m ht

theorem backtrackLen_bounds {cs : List Char} {lo hi m : Nat}
    (h : backtrackLen cs lo hi = some m) : lo ≤ m ∧ m ≤ hi := by
  unfold backtrackLen at h
  have hmem := List.mem_of_find?_eq_some h
  rw [List.mem_reverse, List.mem_range'_1] at hmem
  omega

/-- Matches of `/\b\d{6,14}\b/` have length at least 6 and start with a
digit. -/
theorem numMatchAt_good (prevc : Option Char) (cs : List Char) (k : Nat)
    (h : numMatchAt prevc cs = some k) :
    6 ≤ (cs.take (k + 1)).length ∧ (cs.take (k + 1)).head? ≠ some '$' := by
  unfold numMatchAt at h
  cases hw : wordBoundaryBefore prevc with
  | false => rw [hw] at h; simp at h
  | true =>
    rw [hw, if_pos rfl] at h
    cases hbk : backtrackLen cs 6 (min (cs.takeWhile Char.isDigit).length 14) with
    | none => rw [hbk] at h; simp at h
    | some m =>
      rw [hbk] at h
      have hk : k = m - 1 := (Option.some.inj h).symm
      obtain ⟨hlo, hhi⟩ := backtrackLen_bounds hbk
      have hrun : m ≤ (cs.takeWhile Char.isDigit).length := by omega
      have hcs : m ≤ cs.length := le_trans hrun (length_takeWhile_le _ _)
      have hk1 : k + 1 = m := by omega
      obtain ⟨c, l2, hl, hp⟩ := takeWhile_head (p := Char.isDigit) (l := cs) (by omega)
      constructor
      · rw [hk1, List.length_take]
        omega
      · rw [hk1, hl]
        cases m with
        | zero => omega
        | succ m2 =>
          rw [List.take_succ_cons]
          simp only [List.head?_cons, ne_eq, Option.some.injEq]
          intro he
          rw [he] at hp
          simp [Char.isDigit] at hp

/-- Matches of `/\b[a-zA-Z0-9]{6,20}\b/` have length at least 6 and start
with an alphanumeric character. -/
theorem alphaNumMatchAt_good (prevc : Option Char) (cs : List Char) (k : Nat)
    (h : alphaNumMatchAt prevc cs = some k) :
    6 ≤ (cs.take (k + 1)).length ∧ (cs.take (k + 1)).head? ≠ some '$' := by
  unfold alphaNumMatchAt at h
  cases hw : wordBoundaryBefore prevc with
  | false => rw [hw] at h; simp at h
  | true =>
    rw [hw, if_pos rfl] at h
    cases hbk : backtrackLen cs 6 (min (cs.takeWhile Char.isAlphanum).length 20) with
    | none => rw [hbk] at h; simp at h
    | some m =>
      rw [hbk] at h
      have hk : k = m - 1 := (Option.some.inj h).symm
      obtain ⟨hlo, hhi⟩ := backtrackLen_bounds hbk
      have hrun : m ≤ (cs.takeWhile Char.isAlphanum).length := by omega
      have hcs : m ≤ cs.length := le_trans hrun (length_takeWhile_le _ _)
      have hk1 : k + 1 = m := by omega
      obtain ⟨c, l2, hl, hp⟩ := takeWhile_head (p := Char.isAlphanum) (l := cs) (by omega)
      constructor
      · rw [hk1, List.length_take]
        omega
      · rw [hk1, hl]
        cases m with
        | zero => omega
        | succ m2 =>
          rw [List.take_succ_cons]
          simp only [List.head?_cons, ne_eq, Option.some.injEq]
          intro he
          rw [he] at hp
          simp [Char.isAlphanum, Char.isAlpha, Char.isUpper, Char.isLower, Char.isDigit] at hp

/-- Matches of the UUID pattern have length at least 6 and start with a
hexadecimal character. -/
theorem uuidMatchAt_good (prevc : Option Char) (cs : List Char) (k : Nat)
    (h : uuidMatchAt prevc cs = some k) :
    6 ≤ (cs.take (k + 1)).length ∧ (cs.take (k + 1)).head? ≠ some '$' := by
  unfold uuidMatchAt at h
  cases hw : wordBoundaryBefore prevc with
  | false => rw [hw] at h; simp at h
  | true =>
    rw [hw, if_pos rfl] at h
    cases hch : uuidChain cs with
    | none => rw [hch] at h; simp at h
    | some r =>
      rw [hch] at h
      have hk : k = 35 := by
        by_cases hba : boundaryAfter cs 36
        · rw [if_pos hba] at h; exact (Option.some.inj h).symm
        · rw [if_neg hba] at h; simp at h
      obtain ⟨g1, g2, g3, g4, g5, hl, n1, _, _, _, _, x1, _, _, _, _⟩ := uuidChain_some hch
      cases hg1 : g1 with
      | nil => rw [hg1] at n1; simp at n1
      | cons c g1tl =>
        have hcs : cs = c :: (g1tl ++ '-' :: (g2 ++ '-' :: (g3 ++ '-' :: (g4 ++ '-' :: (g5 ++ r))))) := by
          rw [hl, hg1]; rfl
        have hlen : 36 ≤ cs.length := by
          rw [hl]
          simp only [List.length_append, List.length_cons]
          omega
        have hx : isHexChar c = true := by
          have := List.all_eq_true.mp x1 c (by rw [hg1]; exact List.mem_cons_self _ _)
          exact this
        constructor
        · rw [hk, List.length_take]
          omega
        · rw [hk, hcs, List.take_succ_cons]
          simp only [List.head?_cons, ne_eq, Option.some.injEq]
          intro he
          rw [he] at hx
          simp [isHexChar, Char.isDigit] at hx

theorem jwtDecomposes_length {run : List Char} (h : jwtDecomposes run = true) :
    5 ≤ run.length := by
  unfold jwtDecomposes at h
  rw [List.any_eq_true] at h
  obtain ⟨i, hir, hi⟩ := h
  rw [Bool.and_eq_true, Bool.and_eq_true] at hi
  obtain ⟨⟨hdot, h1⟩, hany⟩ := hi
  rw [List.any_eq_true] at hany
  obtain ⟨j, hjr, hj⟩ := hany
  rw [Bool.and_eq_true, Bool.and_eq_true] at hj
  obtain ⟨⟨hjdot, hij⟩, hj2⟩ := hj
  have h1b : 1 ≤ i := of_decide_eq_true h1
  have hijb : i + 2 ≤ j := of_decide_eq_true hij
  have hj2b : j + 2 ≤ run.length := of_decide_eq_true hj2
  omega

/-- Matches of the JWT pattern have length at least 8 and start with `e`. -/
theorem jwtMatchAt_good (prevc : Option Char) (cs : List Char) (k : Nat)
    (h : jwtMatchAt prevc cs = some k) :
    6 ≤ (cs.take (k + 1)).length ∧ (cs.take (k + 1)).head? ≠ some '$' := by
  unfold jwtMatchAt at h
  split at h
  case h_2 => simp at h
  case h_1 rest =>
    by_cases hd : jwtDecomposes (rest.takeWhile isJwtChar)
    · rw [if_pos hd] at h
      have hk : k = (rest.takeWhile isJwtChar).length + 2 := (Option.some.inj h).symm
      have h5 : 5 ≤ (rest.takeWhile isJwtChar).length := jwtDecomposes_length hd
      have hrest : (rest.takeWhile isJwtChar).length ≤ rest.length := length_takeWhile_le _ _
      constructor
      · rw [hk, List.length_take]
        simp only [List.length_cons]
        omega
      · rw [hk, List.take_succ_cons]
        simp only [List.head?_cons, ne_eq, Option.some.injEq]
        decide
    · rw [if_neg hd] at h
      simp at h

/-- C10: every sub-match produced by `extractLiterals` has length at
least 6, never begins with the parameter opener, never equals
`"true"`/`"false"`, and in particular is never ignorable. -/
theorem extractLiterals_never_ignorable (text : String) :
    ∀ m ∈ extractLiterals text,
      6 ≤ m.length ∧ strStartsWith m "$\x7b" = false ∧ m ≠ "true" ∧ m ≠ "false" ∧
        isIgnorable m = false := by
  intro m hm
  unfold extractLiterals at hm
  by_cases he : text == ""
  · rw [if_pos he] at hm; simp at hm
  · rw [if_neg he] at hm
    have core : 6 ≤ m.toList.length ∧ m.toList.head? ≠ some '$' := by
      unfold runScan at hm
      rcases List.mem_append.mp hm with hm1 | hm2
      · rcases List.mem_append.mp hm1 with hm3 | hm4
        · rcases List.mem_append.mp hm3 with hm5 | hm6
          · obtain ⟨l, hl, hml⟩ := List.mem_map.mp hm5
            have := execScanF_sound (P := fun l => 6 ≤ l.length ∧ l.head? ≠ some '$')
              (fun p c k hk => uuidMatchAt_good p c k hk) _ _ _ l hl
            rw [← hml]
            exact this
          · obtain ⟨l, hl, hml⟩ := List.mem_map.mp hm6
            have := execScanF_sound (P := fun l => 6 ≤ l.length ∧ l.head? ≠ some '$')
              (fun p c k hk => jwtMatchAt_good p c k hk) _ _ _ l hl
            rw [← hml]
            exact this
        · obtain ⟨l, hl, hml⟩ := List.mem_map.mp hm4
          have := execScanF_sound (P := fun l => 6 ≤ l.length ∧ l.head? ≠ some '$')
            (fun p c k hk => numMatchAt_good p c k hk) _ _ _ l hl
          rw [← hml]
          exact this
      · obtain ⟨l, hl, hml⟩ := List.mem_map.mp hm2
        have := execScanF_sound (P := fun l => 6 ≤ l.length ∧ l.head? ≠ some '$')
          (fun p c k hk => alphaNumMatchAt_good p c k hk) _ _ _ l hl
        rw [← hml]
        exact this
    obtain ⟨hlen, hhead⟩ := core
    have hlen2 : 6 ≤ m.length := hlen
    obtain ⟨c, l2, hml⟩ : ∃ c l2, m.toList = c :: l2 := by
      cases hx : m.toList with
      | nil => rw [hx] at hlen; simp at hlen
      | cons c l2 => exact ⟨c, l2, rfl⟩
    have hc : ¬ c = '$' := by
      rw [hml] at hhead
      simp only [List.head?_cons, ne_eq, Option.some.injEq] at hhead
      exact hhead
    have hsw : strStartsWith m "$\x7b" = false := by
      unfold strStartsWith
      rw [beq_eq_false_iff_ne]
      intro hcon
      rw [hml] at hcon
      have h2 : ("$\x7b" : String).toList = ['$', '\x7b'] := rfl
      rw [h2] at hcon
      simp only [List.length_cons, List.length_nil, List.take_succ_cons, List.cons.injEq] at hcon
      exact hc hcon.1
    have htrue : m ≠ "true" := by
      intro hcon
      have : m.toList.length = 4 := by rw [hcon]; rfl
      omega
    have hfalse : m ≠ "false" := by
      intro hcon
      have : m.toList.length = 5 := by rw [hcon]; rfl
      omega
    refine ⟨hlen2, hsw, htrue, hfalse, ?_⟩
    unfold isIgnorable
    split_ifs with g1 g2 g3 g4
    · exfalso
      have : m = "" := beq_iff_eq.mp g1
      rw [this] at hlen2
      simp at hlen2
    · exact absurd g2 (by rw [hsw]; simp)
    · rcases Bool.or_eq_true _ _ ▸ g3 with g5 | g5
      · exact absurd (beq_iff_eq.mp g5) htrue
      · exact absurd (beq_iff_eq.mp g5) hfalse
    · exact absurd g4 (by push_neg; omega)
    · rfl

/-- C10, witness: the guarantee instantiated at the sub-match `eyJabc`
of the text `eyJabc.def.ghi`. -/
theorem extractLiterals_never_ignorable_witness :
    6 ≤ ("eyJabc" : String).length ∧ strStartsWith "eyJabc" "$\x7b" = false ∧
      ("eyJabc" : String) ≠ "true" ∧ ("eyJabc" : String) ≠ "false" ∧
      isIgnorable "eyJabc" = false :=
  extractLiterals_never_ignorable "eyJabc.def.ghi" "eyJabc" (by decide)

/-!
### Structural tolerance and error behaviour (C9)
-/

theorem xmlLikeKVs_mem {kvs : List (String × JTree)} (h : XmlLikeKVs kvs = true) :
    ∀ kv ∈ kvs, (kv.1 != "_" || kv.2.isStr) = true ∧ XmlLike kv.2 = true := by
  induction kvs with
  | nil => intro kv hkv; simp at hkv
  | cons kv2 rest ih =>
    intro kv hkv
    rw [show XmlLikeKVs (kv2 :: rest) =
      ((kv2.1 != "_" || kv2.2.isStr) && XmlLike kv2.2 && XmlLikeKVs rest) from rfl] at h
    rw [Bool.and_eq_true, Bool.and_eq_true] at h
    rcases List.mem_cons.mp hkv with he | hm
    · rw [he]
      exact ⟨h.1.1, h.1.2⟩
    · exact ih h.2 kv hm

theorem xmlLikeElems_mem {l : List JTree} (h : XmlLikeElems l = true) :
    ∀ t ∈ l, XmlLike t = true := by
  induction l with
  | nil => intro t ht; simp at ht
  | cons t2 rest ih =>
    intro t ht
    rw [show XmlLikeElems (t2 :: rest) = (XmlLike t2 && XmlLikeElems rest) from rfl] at h
    rw [Bool.and_eq_true] at h
    rcases List.mem_cons.mp ht with he | hm
    · rw [he]; exact h.1
    · exact ih h.2 t hm

theorem xmlLike_getField {t : JTree} {k : String} {v : JTree}
    (hx : XmlLike t = true) (h : getField t k = some v) : XmlLike v = true := by
  cases t with
  | str sv => simp [getField] at h
  | arr l => simp [getField] at h
  | obj kvs =>
    have h2 : Option.map (fun kv => kv.2) (kvs.find? (fun kv => kv.1 == k)) = some v := h
    cases hf : kvs.find? (fun kv => kv.1 == k) with
    | none => rw [hf] at h2; simp at h2
    | some kv =>
      rw [hf] at h2
      simp only [Option.map, Option.some.injEq] at h2
      have hmem := List.mem_of_find?_eq_some hf
      have := (xmlLikeKVs_mem (by exact hx) kv hmem).2
      rw [← h2]
      exact this

theorem xmlLike_underscore_isStr {t : JTree} {v : JTree}
    (hx : XmlLike t = true) (h : getField t "_" = some v) : v.isStr = true := by
  cases t with
  | str sv => simp [getField] at h
  | arr l => simp [getField] at h
  | obj kvs =>
    have h2 : Option.map (fun kv => kv.2) (kvs.find? (fun kv => kv.1 == "_")) = some v := h
    cases hf : kvs.find? (fun kv => kv.1 == "_") with
    | none => rw [hf] at h2; simp at h2
    | some kv =>
      rw [hf] at h2
      simp only [Option.map, Option.some.injEq] at h2
      have hmem := List.mem_of_find?_eq_some hf
      have hkey : kv.1 = "_" := by
        have hp := List.find?_some (p := fun kv : String × JTree => kv.1 == "_") hf
        simpa using hp
      have hor := (xmlLikeKVs_mem (by exact hx) kv hmem).1
      rw [hkey] at hor
      simp only [bne_self_eq_false, Bool.false_or] at hor
      rw [← h2]
      exact hor

theorem textOf_ok {p : JTree} (hx : XmlLike p = true) : ∃ o, textOf p = .ok o := by
  unfold textOf
  cases hf : getField p "_" with
  | none => exact ⟨none, rfl⟩
  | some v =>
    have hstr := xmlLike_underscore_isStr hx hf
    cases v with
    | str t => exact ⟨if t == "" then none else some t, rfl⟩
    | obj kvs => simp [JTree.isStr] at hstr
    | arr l => simp [JTree.isStr] at hstr

theorem xmlLike_findProp {f : Option JTree} {pname : String} {p : JTree}
    (hf : ∀ t, f = some t → XmlLike t = true) (h : findProp f pname = .ok (some p)) :
    XmlLike p = true := by
  unfold findProp at h
  cases f with
  | none => simp at h
  | some t =>
    have hxt := hf t rfl
    cases t with
    | str sv => simp at h
    | arr l =>
      simp only [Except.ok.injEq] at h
      have hmem := List.mem_of_find?_eq_some h
      exact xmlLikeElems_mem (by exact hxt) p hmem
    | obj kvs =>
      cases hfind : getField (.obj kvs) "find" with
      | some w =>
        simp only [hfind] at h
        exact Except.noConfusion h
      | none =>
        simp only [hfind, Except.ok.injEq] at h
        exact xmlLike_getField hxt h

theorem findFreeKVs_mem {kvs : List (String × JTree)} (h : FindFreeKVs kvs = true) :
    ∀ kv ∈ kvs, ¬ kv.1 = "find" ∧ FindFree kv.2 = true := by
  induction kvs with
  | nil => intro kv hkv; simp at hkv
  | cons kv2 rest ih =>
    intro kv hkv
    rw [show FindFreeKVs (kv2 :: rest) =
      ((kv2.1 != "find") && FindFree kv2.2 && FindFreeKVs rest) from rfl] at h
    rw [Bool.and_eq_true, Bool.and_eq_true] at h
    rcases List.mem_cons.mp hkv with he | hm
    · rw [he]
      exact ⟨by simpa using h.1.1, h.1.2⟩
    · exact ih h.2 kv hm

theorem findFreeElems_mem {l : List JTree} (h : FindFreeElems l = true) :
    ∀ t ∈ l, FindFree t = true := by
  induction l with
  | nil => intro t ht; simp at ht
  | cons t2 rest ih =>
    intro t ht
    rw [show FindFreeElems (t2 :: rest) = (FindFree t2 && FindFreeElems rest) from rfl] at h
    rw [Bool.and_eq_true] at h
    rcases List.mem_cons.mp ht with he | hm
    · rw [he]; exact h.1
    · exact ih h.2 t hm

theorem findFree_getField {t : JTree} {k : String} {v : JTree}
    (hff : FindFree t = true) (h : getField t k = some v) : FindFree v = true := by
  cases t with
  | str sv => simp [getField] at h
  | arr l => simp [getField] at h
  | obj kvs =>
    have h2 : Option.map (fun kv => kv.2) (kvs.find? (fun kv => kv.1 == k)) = some v := h
    cases hf : kvs.find? (fun kv => kv.1 == k) with
    | none => rw [hf] at h2; simp at h2
    | some kv =>
      rw [hf] at h2
      simp only [Option.map, Option.some.injEq] at h2
      have hmem := List.mem_of_find?_eq_some hf
      have := (findFreeKVs_mem (by exact hff) kv hmem).2
      rw [← h2]
      exact this

theorem findFree_no_find_key {kvs : List (String × JTree)}
    (hff : FindFree (.obj kvs) = true) : getField (.obj kvs) "find" = none := by
  show Option.map (fun kv => kv.2) (kvs.find? (fun kv => kv.1 == "find")) = none
  cases hf : kvs.find? (fun kv => kv.1 == "find") with
  | none => rfl
  | some kv =>
    exfalso
    have hkey : kv.1 = "find" := by
      have hp := List.find?_some (p := fun kv : String × JTree => kv.1 == "find") hf
      simpa using hp
    exact (findFreeKVs_mem (by exact hff) kv (List.mem_of_find?_eq_some hf)).1 hkey

theorem findProp_ok (f : Option JTree) (pname : String)
    (hf : ∀ t, f = some t → FindFree t = true) : ∃ o, findProp f pname = .ok o := by
  cases f with
  | none => exact ⟨none, rfl⟩
  | some t =>
    cases t with
    | str sv => exact ⟨none, rfl⟩
    | arr l => exact ⟨_, rfl⟩
    | obj kvs =>
      refine ⟨getField (.obj kvs) pname, ?_⟩
      have heq : findProp (some (.obj kvs)) pname =
          (match getField (.obj kvs) "find" with
           | some _ => (.error () : Except Unit (Option JTree))
           | none => .ok (getField (.obj kvs) pname)) := rfl
      rw [heq, findFree_no_find_key (hf (.obj kvs) rfl)]

theorem processArg_ok {values : List String} {arg : JTree} (hx : XmlLike arg = true)
    (hff : FindFree arg = true) : ∃ vs, processArg values arg = .ok vs := by
  unfold processArg
  obtain ⟨o, ho⟩ := findProp_ok (getField arg "stringProp") "Argument.value"
    (fun t ht => findFree_getField hff ht)
  simp only [ho]
  cases o with
  | none => exact ⟨values, rfl⟩
  | some valProp =>
    have hxp : XmlLike valProp = true :=
      xmlLike_findProp (fun t ht => xmlLike_getField hx ht) ho
    obtain ⟨o2, ho2⟩ := textOf_ok hxp
    simp only [ho2]
    cases o2 with
    | none => exact ⟨values, rfl⟩
    | some raw =>
      exact ⟨_, rfl⟩

theorem processArgs_ok {args : List JTree}
    (hx : ∀ a ∈ args, XmlLike a = true) (hff : ∀ a ∈ args, FindFree a = true) :
    ∀ values, ∃ vs, processArgs values args = .ok vs := by
  induction args with
  | nil => intro values; exact ⟨values, rfl⟩
  | cons a rest ih =>
    intro values
    obtain ⟨v2, hv2⟩ := @processArg_ok values a (hx a (List.mem_cons_self _ _))
      (hff a (List.mem_cons_self _ _))
    obtain ⟨vs, hvs⟩ := ih (fun a2 ha2 => hx a2 (List.mem_cons_of_mem _ ha2))
      (fun a2 ha2 => hff a2 (List.mem_cons_of_mem _ ha2)) v2
    refine ⟨vs, ?_⟩
    rw [show processArgs values (a :: rest) =
      (match processArg values a with
       | .error e => .error e
       | .ok values2 => processArgs values2 rest) from rfl, hv2]
    exact hvs

theorem argListOf_xmlLike {sampler : JTree} (hx : XmlLike sampler = true) :
    ∀ a ∈ argListOf sampler, XmlLike a = true := by
  intro a ha
  unfold argListOf at ha
  cases h1 : ((getField sampler "elementProp").bind
      (fun e => getField e "collectionProp")).bind (fun c => getField c "elementProp") with
  | none => rw [h1] at ha; simp at ha
  | some v =>
    simp only [h1] at ha
    obtain ⟨e1, he1, h2⟩ := Option.bind_eq_some.mp h1
    obtain ⟨e0, he0, he1b⟩ := Option.bind_eq_some.mp he1
    have hx0 : XmlLike e0 = true := xmlLike_getField hx he0
    have hx1 : XmlLike e1 = true := xmlLike_getField hx0 he1b
    have hxv : XmlLike v = true := xmlLike_getField hx1 h2
    by_cases ht : truthy v
    · simp only [ht, if_true] at ha
      cases v with
      | str sv => simp at ha; rw [ha]; exact hxv
      | obj kvs => simp at ha; rw [ha]; exact hxv
      | arr l => exact xmlLikeElems_mem (by exact hxv) a ha
    · simp only [ht, if_false] at ha
      simp at ha

theorem argListOf_findFree {sampler : JTree} (hff : FindFree sampler = true) :
    ∀ a ∈ argListOf sampler, FindFree a = true := by
  intro a ha
  unfold argListOf at ha
  cases h1 : ((getField sampler "elementProp").bind
      (fun e => getField e "collectionProp")).bind (fun c => getField c "elementProp") with
  | none => rw [h1] at ha; simp at ha
  | some v =>
    simp only [h1] at ha
    obtain ⟨e1, he1, h2⟩ := Option.bind_eq_some.mp h1
    obtain ⟨e0, he0, he1b⟩ := Option.bind_eq_some.mp he1
    have hf0 : FindFree e0 = true := findFree_getField hff he0
    have hf1 : FindFree e1 = true := findFree_getField hf0 he1b
    have hfv : FindFree v = true := findFree_getField hf1 h2
    by_cases ht : truthy v
    · simp only [ht, if_true] at ha
      cases v with
      | str sv => simp at ha; rw [ha]; exact hfv
      | obj kvs => simp at ha; rw [ha]; exact hfv
      | arr l => exact findFreeElems_mem (by exact hfv) a ha
    · simp only [ht, if_false] at ha
      simp at ha

theorem extractRequestValues_ok {sampler : JTree} (hx : XmlLike sampler = true)
    (hff : FindFree sampler = true) : ∃ vs, extractRequestValues sampler = .ok vs := by
  unfold extractRequestValues
  have hPath : ∃ fp, pathValues sampler = .ok fp := by
    unfold pathValues
    obtain ⟨o, ho⟩ := findProp_ok (getField sampler "stringProp") "HTTPSampler.path"
      (fun t ht => findFree_getField hff ht)
    simp only [ho]
    cases o with
    | none => exact ⟨[], rfl⟩
    | some pathProp =>
      have hxp : XmlLike pathProp = true :=
        xmlLike_findProp (fun t ht => xmlLike_getField hx ht) ho
      obtain ⟨o2, ho2⟩ := textOf_ok hxp
      simp only [ho2]
      cases o2 with
      | none => exact ⟨[], rfl⟩
      | some raw => exact ⟨_, rfl⟩
  obtain ⟨fp, hfp⟩ := hPath
  rw [hfp]
  exact processArgs_ok (argListOf_xmlLike hx) (argListOf_findFree hff) fp

theorem collectFrom_mem {v : JTree} {ord : Nat} {r : RawSampler}
    (hr : r ∈ (collectFrom v ord).1) :
    ∃ s ∈ samplerNodesOf v, ∃ o, r = mkRawSampler s o := by
  unfold collectFrom at hr
  have main : ∀ (nodes : List JTree) (acc : List RawSampler × Nat),
      r ∈ (nodes.foldl (fun acc s => (acc.1 ++ [mkRawSampler s (acc.2 + 1)], acc.2 + 1)) acc).1 →
      r ∈ acc.1 ∨ ∃ s ∈ nodes, ∃ o, r = mkRawSampler s o := by
    intro nodes
    induction nodes with
    | nil => intro acc h; exact Or.inl h
    | cons n rest ih =>
      intro acc h
      rcases ih _ h with hacc | ⟨s, hs, o, ho⟩
      · rcases List.mem_append.mp hacc with h1 | h2
        · exact Or.inl h1
        · simp only [List.mem_singleton] at h2
          exact Or.inr ⟨n, List.mem_cons_self _ _, acc.2 + 1, h2⟩
      · exact Or.inr ⟨s, List.mem_cons_of_mem _ hs, o, ho⟩
  rcases main (samplerNodesOf v) ([], ord) hr with h1 | h2
  · simp at h1
  · exact h2

theorem samplerNodesOf_xmlLike {v : JTree} (hx : XmlLike v = true) :
    ∀ s ∈ samplerNodesOf v, XmlLike s = true := by
  intro s hs
  cases v with
  | str sv => simp [samplerNodesOf] at hs; rw [hs]; exact hx
  | obj kvs => simp [samplerNodesOf] at hs; rw [hs]; exact hx
  | arr l => exact xmlLikeElems_mem (by exact hx) s hs

theorem collectFrom_xmlLike {v : JTree} {ord : Nat} (hx : XmlLike v = true) :
    ∀ r ∈ (collectFrom v ord).1, XmlLike r.node = true := by
  intro r hr
  obtain ⟨s, hs, o, ho⟩ := collectFrom_mem hr
  rw [ho]
  exact samplerNodesOf_xmlLike hx s hs

mutual

theorem collectHTTPSamplers_xmlLike : ∀ (t : JTree) (ord : Nat), XmlLike t = true →
    ∀ r ∈ (collectHTTPSamplers t ord).1, XmlLike r.node = true
  | .str sv, ord => by
    intro hx r hr
    simp [collectHTTPSamplers] at hr
  | .obj kvs, ord => by
    intro hx r hr
    rw [show collectHTTPSamplers (.obj kvs) ord =
      (match getField (.obj kvs) "HTTPSamplerProxy" with
       | some v =>
         if truthy v then
           ((collectFrom v ord).1 ++ (collectKVs kvs (collectFrom v ord).2).1,
             (collectKVs kvs (collectFrom v ord).2).2)
         else collectKVs kvs ord
       | none => collectKVs kvs ord) from rfl] at hr
    cases hg : getField (.obj kvs) "HTTPSamplerProxy" with
    | none =>
      simp only [hg] at hr
      exact collectKVs_xmlLike kvs ord (by exact hx) r hr
    | some v =>
      simp only [hg] at hr
      by_cases ht : truthy v
      · simp only [ht, if_true] at hr
        rcases List.mem_append.mp hr with h1 | h2
        · exact collectFrom_xmlLike (xmlLike_getField hx hg) r h1
        · exact collectKVs_xmlLike kvs (collectFrom v ord).2 (by exact hx) r h2
      · simp only [ht, if_false] at hr
        exact collectKVs_xmlLike kvs ord (by exact hx) r hr
  | .arr l, ord => by
    intro hx r hr
    rw [show collectHTTPSamplers (.arr l) ord = collectElems l ord from rfl] at hr
    exact collectElems_xmlLike l ord (by exact hx) r hr

theorem collectKVs_xmlLike : ∀ (kvs : List (String × JTree)) (ord : Nat),
    XmlLikeKVs kvs = true → ∀ r ∈ (collectKVs kvs ord).1, XmlLike r.node = true
  | [], ord => by
    intro hx r hr
    simp [collectKVs] at hr
  | (k, v) :: rest, ord => by
    intro hx r hr
    rw [show XmlLikeKVs ((k, v) :: rest) =
      ((k != "_" || v.isStr) && XmlLike v && XmlLikeKVs rest) from rfl] at hx
    rw [Bool.and_eq_true, Bool.and_eq_true] at hx
    rw [show collectKVs ((k, v) :: rest) ord =
      ((collectHTTPSamplers v ord).1 ++ (collectKVs rest (collectHTTPSamplers v ord).2).1,
        (collectKVs rest (collectHTTPSamplers v ord).2).2) from rfl] at hr
    rcases List.mem_append.mp hr with h1 | h2
    · exact collectHTTPSamplers_xmlLike v ord hx.1.2 r h1
    · exact collectKVs_xmlLike rest (collectHTTPSamplers v ord).2 hx.2 r h2

theorem collectElems_xmlLike : ∀ (l : List JTree) (ord : Nat),
    XmlLikeElems l = true → ∀ r ∈ (collectElems l ord).1, XmlLike r.node = true
  | [], ord => by
    intro hx r hr
    simp [collectElems] at hr
  | t :: rest, ord => by
    intro hx r hr
    rw [show XmlLikeElems (t :: rest) = (XmlLike t && XmlLikeElems rest) from rfl] at hx
    rw [Bool.and_eq_true] at hx
    rw [show collectElems (t :: rest) ord =
      ((collectHTTPSamplers t ord).1 ++ (collectElems rest (collectHTTPSamplers t ord).2).1,
        (collectElems rest (collectHTTPSamplers t ord).2).2) from rfl] at hr
    rcases List.mem_append.mp hr with h1 | h2
    · exact collectHTTPSamplers_xmlLike t ord hx.1 r h1
    · exact collectElems_xmlLike rest (collectHTTPSamplers t ord).2 hx.2 r h2

end

theorem samplerNodesOf_findFree {v : JTree} (hff : FindFree v = true) :
    ∀ s ∈ samplerNodesOf v, FindFree s = true := by
  intro s hs
  cases v with
  | str sv => simp [samplerNodesOf] at hs; rw [hs]; exact hff
  | obj kvs => simp [samplerNodesOf] at hs; rw [hs]; exact hff
  | arr l => exact findFreeElems_mem (by exact hff) s hs

theorem collectFrom_findFree {v : JTree} {ord : Nat} (hff : FindFree v = true) :
    ∀ r ∈ (collectFrom v ord).1, FindFree r.node = true := by
  intro r hr
  obtain ⟨s, hs, o, ho⟩ := collectFrom_mem hr
  rw [ho]
  exact samplerNodesOf_findFree hff s hs

mutual

theorem collectHTTPSamplers_findFree : ∀ (t : JTree) (ord : Nat), FindFree t = true →
    ∀ r ∈ (collectHTTPSamplers t ord).1, FindFree r.node = true
  | .str sv, ord => by
    intro hff r hr
    simp [collectHTTPSamplers] at hr
  | .obj kvs, ord => by
    intro hff r hr
    rw [show collectHTTPSamplers (.obj kvs) ord =
      (match getField (.obj kvs) "HTTPSamplerProxy" with
       | some v =>
         if truthy v then
           ((collectFrom v ord).1 ++ (collectKVs kvs (collectFrom v ord).2).1,
             (collectKVs kvs (collectFrom v ord).2).2)
         else collectKVs kvs ord
       | none => collectKVs kvs ord) from rfl] at hr
    cases hg : getField (.obj kvs) "HTTPSamplerProxy" with
    | none =>
      simp only [hg] at hr
      exact collectKVs_findFree kvs ord (by exact hff) r hr
    | some v =>
      simp only [hg] at hr
      by_cases ht : truthy v
      · simp only [ht, if_true] at hr
        rcases List.mem_append.mp hr with h1 | h2
        · exact collectFrom_findFree (findFree_getField hff hg) r h1
        · exact collectKVs_findFree kvs (collectFrom v ord).2 (by exact hff) r h2
      · simp only [ht, if_false] at hr
        exact collectKVs_findFree kvs ord (by exact hff) r hr
  | .arr l, ord => by
    intro hff r hr
    rw [show collectHTTPSamplers (.arr l) ord = collectElems l ord from rfl] at hr
    exact collectElems_findFree l ord (by exact hff) r hr

theorem collectKVs_findFree : ∀ (kvs : List (String × JTree)) (ord : Nat),
    FindFreeKVs kvs = true → ∀ r ∈ (collectKVs kvs ord).1, FindFree r.node = true
  | [], ord => by
    intro hff r hr
    simp [collectKVs] at hr
  | (k, v) :: rest, ord => by
    intro hff r hr
    rw [show FindFreeKVs ((k, v) :: rest) =
      ((k != "find") && FindFree v && FindFreeKVs rest) from rfl] at hff
    rw [Bool.and_eq_true, Bool.and_eq_true] at hff
    rw [show collectKVs ((k, v) :: rest) ord =
      ((collectHTTPSamplers v ord).1 ++ (collectKVs rest (collectHTTPSamplers v ord).2).1,
        (collectKVs rest (collectHTTPSamplers v ord).2).2) from rfl] at hr
    rcases List.mem_append.mp hr with h1 | h2
    · exact collectHTTPSamplers_findFree v ord hff.1.2 r h1
    · exact collectKVs_findFree rest (collectHTTPSamplers v ord).2 hff.2 r h2

theorem collectElems_findFree : ∀ (l : List JTree) (ord : Nat),
    FindFreeElems l = true → ∀ r ∈ (collectElems l ord).1, FindFree r.node = true
  | [], ord => by
    intro hff r hr
    simp [collectElems] at hr
  | t :: rest, ord => by
    intro hff r hr
    rw [show FindFreeElems (t :: rest) = (FindFree t && FindFreeElems rest) from rfl] at hff
    rw [Bool.and_eq_true] at hff
    rw [show collectElems (t :: rest) ord =
      ((collectHTTPSamplers t ord).1 ++ (collectElems rest (collectHTTPSamplers t ord).2).1,
        (collectElems rest (collectHTTPSamplers t ord).2).2) from rfl] at hr
    rcases List.mem_append.mp hr with h1 | h2
    · exact collectHTTPSamplers_findFree t ord hff.1 r h1
    · exact collectElems_findFree rest (collectHTTPSamplers t ord).2 hff.2 r h2

end

theorem buildSamplers_ok {raw : List RawSampler}
    (hx : ∀ r ∈ raw, XmlLike r.node = true)
    (hff : ∀ r ∈ raw, FindFree r.node = true) : ∃ ss, buildSamplers raw = .ok ss := by
  induction raw with
  | nil => exact ⟨[], rfl⟩
  | cons r rest ih =>
    obtain ⟨vs, hvs⟩ := extractRequestValues_ok (hx r (List.mem_cons_self _ _))
      (hff r (List.mem_cons_self _ _))
    obtain ⟨ss, hss⟩ := ih (fun r2 hr2 => hx r2 (List.mem_cons_of_mem _ hr2))
      (fun r2 hr2 => hff r2 (List.mem_cons_of_mem _ hr2))
    refine ⟨{ order := r.order, name := r.name, requestValues := vs } :: ss, ?_⟩
    have heq : buildSamplers (r :: rest) =
        (match extractRequestValues r.node with
         | .error e => .error e
         | .ok vs =>
           match buildSamplers rest with
           | .error e => .error e
           | .ok tail =>
             .ok ({ order := r.order, name := r.name, requestValues := vs } :: tail)) := rfl
    rw [heq, hvs, hss]

/-- C9, amended: the entry point errors when the document cannot be
located, but a well-formed tree does not rule out failure: a `stringProp`
object carrying a `find` child makes `stringProp?.find?.()` invoke a
non-function and raise a TypeError. On any tree whose character-content
`_` fields are strings AND which contains no element named `find`, the
computation succeeds — absent or partial fields degrade to defaults
instead of raising, and a zero-candidate report is an ordinary
successful result. -/
theorem engine_total_on_wellformed :
    (∀ jmxFile : String, detectCorrelations none jmxFile = .error .documentNotFound) ∧
      (∀ (doc : JTree) (jmxFile : String), XmlLike doc = true → FindFree doc = true →
        ∃ r : Report, detectCorrelations (some doc) jmxFile = .ok r) := by
  constructor
  · intro jmxFile
    rfl
  · intro doc jmxFile hx hf
    have hnodes : ∀ r ∈ (collectHTTPSamplers doc 0).1, XmlLike r.node = true :=
      collectHTTPSamplers_xmlLike doc 0 hx
    have hfnodes : ∀ r ∈ (collectHTTPSamplers doc 0).1, FindFree r.node = true :=
      collectHTTPSamplers_findFree doc 0 hf
    obtain ⟨ss, hss⟩ := buildSamplers_ok hnodes hfnodes
    refine ⟨{ jmxFile := jmxFile
              samplersScanned := (collectHTTPSamplers doc 0).1.length
              correlationCandidates :=
                (buildCorrelationSuggestions (buildValueIndex ss)).length
              suggestions := buildCorrelationSuggestions (buildValueIndex ss) }, ?_⟩
    show (analyzeJMXForCorrelation doc jmxFile).mapError (fun _ => EngineError.typeError) = _
    unfold analyzeJMXForCorrelation
    rw [hss]
    rfl

/-- C9, counterexample: a well-formed tree — every character-content `_`
field a string, exactly what `xml2js` emits for a `<stringProp>` holding
a `<find>` child element — still makes the engine raise a TypeError,
because `sampler.stringProp?.find?.(cb)` invokes the non-function value
of the `find` key. This refutes "given any well-formed tree of nested
objects, arrays and strings, the computation never fails". -/
theorem wellformed_tree_type_error :
    XmlLike docFindChild = true ∧
      detectCorrelations (some docFindChild) "find.jmx" = .error .typeError :=
  ⟨rfl, rfl⟩

/-- C9, witness: a missing document errors, and the well-formed,
`find`-free document whose sampler has no name, no path and no arguments
yields the valid zero-candidate report with the defaulted sampler. -/
theorem engine_total_on_wellformed_witness :
    detectCorrelations none "missing.jmx" = .error .documentNotFound ∧
      XmlLike docDefaultsOnly = true ∧ FindFree docDefaultsOnly = true ∧
      detectCorrelations (some docDefaultsOnly) "defaults.jmx" = .ok reportDefaultsOnly := by
  refine ⟨engine_total_on_wellformed.1 "missing.jmx", by decide, by decide, ?_⟩
  obtain ⟨r, hr⟩ := engine_total_on_wellformed.2 docDefaultsOnly "defaults.jmx"
    (by decide) (by decide)
  rw [show r = reportDefaultsOnly from Except.ok.inj (hr.symm.trans rfl)] at hr
  exact hr

/-!
### Shape of the value index (C7)
-/

theorem nodup_setAdd {values : List String} {v : String} (h : values.Nodup) :
    (setAdd values v).Nodup := by
  unfold setAdd
  by_cases hc : values.contains v
  · rw [if_pos hc]; exact h
  · rw [if_neg hc]
    rw [List.nodup_append]
    refine ⟨h, List.nodup_singleton v, ?_⟩
    intro a ha hav
    simp only [List.mem_singleton] at hav
    rw [hav] at ha
    exact hc (List.elem_iff.mpr ha)

theorem nodup_setAddAll {values : List String} (vs : List String) (h : values.Nodup) :
    (setAddAll values vs).Nodup := by
  induction vs generalizing values with
  | nil => exact h
  | cons v rest ih => exact ih (nodup_setAdd h)

theorem nodup_condFold {values : List String} (qs : List String) (h : values.Nodup) :
    (qs.foldl (fun acc val => if !isIgnorable val then setAdd acc val else acc) values).Nodup := by
  induction qs generalizing values with
  | nil => exact h
  | cons q rest ih =>
    by_cases hq : !isIgnorable q
    · simp only [List.foldl_cons, hq, if_true]
      exact ih (nodup_setAdd h)
    · simp only [List.foldl_cons, hq, if_false]
      exact ih h

theorem nodup_addQueryValues {values : List String} (fullPath : String) (h : values.Nodup) :
    (addQueryValues values fullPath).Nodup := by
  unfold addQueryValues
  split
  · split
    · exact nodup_condFold _ h
    · exact h
  · exact h

theorem pathValues_nodup {sampler : JTree} {fp : List String}
    (h : pathValues sampler = .ok fp) : fp.Nodup := by
  unfold pathValues at h
  cases hfp : findProp (getField sampler "stringProp") "HTTPSampler.path" with
  | error e =>
    rw [hfp] at h
    exact Except.noConfusion h
  | ok o =>
    simp only [hfp] at h
    cases o with
    | none =>
      rw [← Except.ok.inj h]
      exact List.nodup_nil
    | some pathProp =>
      cases ht : textOf pathProp with
      | error e => simp only [ht] at h; simp at h
      | ok o2 =>
        simp only [ht] at h
        cases o2 with
        | none =>
          rw [← Except.ok.inj h]
          exact List.nodup_nil
        | some raw =>
          rw [← Except.ok.inj h]
          exact nodup_setAddAll _ (nodup_addQueryValues _ List.nodup_nil)

theorem processArg_nodup {values v2 : List String} {arg : JTree}
    (h : processArg values arg = .ok v2) (hn : values.Nodup) : v2.Nodup := by
  unfold processArg at h
  cases hfp : findProp (getField arg "stringProp") "Argument.value" with
  | error e =>
    rw [hfp] at h
    exact Except.noConfusion h
  | ok o =>
    simp only [hfp] at h
    cases o with
    | none =>
      rw [← Except.ok.inj h]
      exact hn
    | some valProp =>
      cases ht : textOf valProp with
      | error e => simp only [ht] at h; simp at h
      | ok o2 =>
        simp only [ht] at h
        cases o2 with
        | none =>
          rw [← Except.ok.inj h]
          exact hn
        | some raw =>
          rw [← Except.ok.inj h]
          by_cases hcond : jsTrim raw != "" && !isIgnorable (jsTrim raw)
          · rw [if_pos hcond]
            exact nodup_setAddAll _ (nodup_setAdd hn)
          · rw [if_neg hcond]
            exact nodup_setAddAll _ hn

theorem processArgs_nodup {args : List JTree} :
    ∀ {values vs : List String}, processArgs values args = .ok vs → values.Nodup →
      vs.Nodup := by
  induction args with
  | nil =>
    intro values vs h hn
    rw [← Except.ok.inj h]
    exact hn
  | cons a rest ih =>
    intro values vs h hn
    have heq : processArgs values (a :: rest) =
        (match processArg values a with
         | .error e => .error e
         | .ok values2 => processArgs values2 rest) := rfl
    rw [heq] at h
    cases hp : processArg values a with
    | error e => simp only [hp] at h; simp at h
    | ok values2 =>
      simp only [hp] at h
      exact ih h (processArg_nodup hp hn)

theorem extractRequestValues_nodup {sampler : JTree} {vs : List String}
    (h : extractRequestValues sampler = .ok vs) : vs.Nodup := by
  unfold extractRequestValues at h
  cases hp : pathValues sampler with
  | error e => rw [hp] at h; simp at h
  | ok fp =>
    rw [hp] at h
    exact processArgs_nodup h (pathValues_nodup hp)

theorem buildSamplers_shape {raw : List RawSampler} :
    ∀ {ss : List CSampler}, buildSamplers raw = .ok ss →
      ss.map (fun s => s.order) = raw.map (fun r => r.order) ∧
        ∀ s ∈ ss, s.requestValues.Nodup := by
  induction raw with
  | nil =>
    intro ss h
    rw [← Except.ok.inj h]
    exact ⟨rfl, by intro s hs; simp at hs⟩
  | cons r rest ih =>
    intro ss h
    have heq : buildSamplers (r :: rest) =
        (match extractRequestValues r.node with
         | .error e => .error e
         | .ok vs =>
           match buildSamplers rest with
           | .error e => .error e
           | .ok tail =>
             .ok ({ order := r.order, name := r.name, requestValues := vs } :: tail)) := rfl
    rw [heq] at h
    cases he : extractRequestValues r.node with
    | error e => simp only [he] at h; simp at h
    | ok vs =>
      simp only [he] at h
      cases hb : buildSamplers rest with
      | error e => simp only [hb] at h; simp at h
      | ok tail =>
        simp only [hb] at h
        obtain ⟨hmap, hnd⟩ := ih hb
        rw [← Except.ok.inj h]
        constructor
        · simp only [List.map_cons]
          rw [hmap]
        · intro s hs
          rcases List.mem_cons.mp hs with he2 | hm
          · rw [he2]
            exact extractRequestValues_nodup he
          · exact hnd s hm

theorem orders_append {p q : List RawSampler × Nat} {ord : Nat}
    (hp1 : ord ≤ p.2) (hp2 : ∀ r ∈ p.1, ord < r.order ∧ r.order ≤ p.2)
    (hp3 : List.Pairwise (fun a b => a.order < b.order) p.1)
    (hq1 : p.2 ≤ q.2) (hq2 : ∀ r ∈ q.1, p.2 < r.order ∧ r.order ≤ q.2)
    (hq3 : List.Pairwise (fun a b => a.order < b.order) q.1) :
    ord ≤ q.2 ∧ (∀ r ∈ p.1 ++ q.1, ord < r.order ∧ r.order ≤ q.2) ∧
      List.Pairwise (fun a b => a.order < b.order) (p.1 ++ q.1) := by
  refine ⟨le_trans hp1 hq1, ?_, ?_⟩
  · intro r hr
    rcases List.mem_append.mp hr with h1 | h2
    · exact ⟨(hp2 r h1).1, le_trans (hp2 r h1).2 hq1⟩
    · exact ⟨lt_of_le_of_lt hp1 (hq2 r h2).1, (hq2 r h2).2⟩
  · rw [List.pairwise_append]
    refine ⟨hp3, hq3, ?_⟩
    intro a ha b hb
    exact lt_of_le_of_lt (hp2 a ha).2 (hq2 b hb).1

theorem collectFrom_orders (v : JTree) (ord : Nat) :
    ord ≤ (collectFrom v ord).2 ∧
      (∀ r ∈ (collectFrom v ord).1, ord < r.order ∧ r.order ≤ (collectFrom v ord).2) ∧
      List.Pairwise (fun a b => a.order < b.order) (collectFrom v ord).1 := by
  have main : ∀ (nodes : List JTree) (acc : List RawSampler × Nat),
      ord ≤ acc.2 → (∀ r ∈ acc.1, ord < r.order ∧ r.order ≤ acc.2) →
      List.Pairwise (fun a b => a.order < b.order) acc.1 →
      ord ≤ (nodes.foldl
          (fun acc s => (acc.1 ++ [mkRawSampler s (acc.2 + 1)], acc.2 + 1)) acc).2 ∧
        (∀ r ∈ (nodes.foldl
            (fun acc s => (acc.1 ++ [mkRawSampler s (acc.2 + 1)], acc.2 + 1)) acc).1,
          ord < r.order ∧ r.order ≤ (nodes.foldl
            (fun acc s => (acc.1 ++ [mkRawSampler s (acc.2 + 1)], acc.2 + 1)) acc).2) ∧
        List.Pairwise (fun a b => a.order < b.order) (nodes.foldl
          (fun acc s => (acc.1 ++ [mkRawSampler s (acc.2 + 1)], acc.2 + 1)) acc).1 := by
    intro nodes
    induction nodes with
    | nil => intro acc h1 h2 h3; exact ⟨h1, h2, h3⟩
    | cons n rest ih =>
      intro acc h1 h2 h3
      refine ih (acc.1 ++ [mkRawSampler n (acc.2 + 1)], acc.2 + 1) (by omega) ?_ ?_
      · intro r hr
        rcases List.mem_append.mp hr with hm | hm
        · have := h2 r hm
          simp only
          omega
        · simp only [List.mem_singleton] at hm
          rw [hm]
          show ord < acc.2 + 1 ∧ acc.2 + 1 ≤ acc.2 + 1
          omega
      · rw [List.pairwise_append]
        refine ⟨h3, List.pairwise_singleton _ _, ?_⟩
        intro a ha b hb
        simp only [List.mem_singleton] at hb
        rw [hb]
        show a.order < acc.2 + 1
        have := h2 a ha
        omega
  exact main (samplerNodesOf v) ([], ord) le_rfl (by intro r hr; simp at hr) List.Pairwise.nil

mutual

theorem collectHTTPSamplers_orders : ∀ (t : JTree) (ord : Nat),
    ord ≤ (collectHTTPSamplers t ord).2 ∧
      (∀ r ∈ (collectHTTPSamplers t ord).1,
        ord < r.order ∧ r.order ≤ (collectHTTPSamplers t ord).2) ∧
      List.Pairwise (fun a b => a.order < b.order) (collectHTTPSamplers t ord).1
  | .str sv, ord => by
    refine ⟨le_rfl, ?_, List.Pairwise.nil⟩
    intro r hr
    simp [collectHTTPSamplers] at hr
  | .obj kvs, ord => by
    have heq : collectHTTPSamplers (.obj kvs) ord =
        (match getField (.obj kvs) "HTTPSamplerProxy" with
         | some v =>
           if truthy v then
             ((collectFrom v ord).1 ++ (collectKVs kvs (collectFrom v ord).2).1,
               (collectKVs kvs (collectFrom v ord).2).2)
           else collectKVs kvs ord
         | none => collectKVs kvs ord) := rfl
    cases hg : getField (.obj kvs) "HTTPSamplerProxy" with
    | none =>
      have heq2 : collectHTTPSamplers (.obj kvs) ord = collectKVs kvs ord := by
        rw [heq, hg]
      rw [heq2]
      exact collectKVs_orders kvs ord
    | some v =>
      by_cases ht : truthy v
      · have heq2 : collectHTTPSamplers (.obj kvs) ord =
            ((collectFrom v ord).1 ++ (collectKVs kvs (collectFrom v ord).2).1,
              (collectKVs kvs (collectFrom v ord).2).2) := by
          rw [heq, hg]
          exact if_pos ht
        rw [heq2]
        obtain ⟨a1, a2, a3⟩ := collectFrom_orders v ord
        obtain ⟨b1, b2, b3⟩ := collectKVs_orders kvs (collectFrom v ord).2
        exact orders_append a1 a2 a3 b1 b2 b3
      · have heq2 : collectHTTPSamplers (.obj kvs) ord = collectKVs kvs ord := by
          rw [heq, hg]
          exact if_neg ht
        rw [heq2]
        exact collectKVs_orders kvs ord
  | .arr l, ord => by
    have heq : collectHTTPSamplers (.arr l) ord = collectElems l ord := rfl
    rw [heq]
    exact collectElems_orders l ord

theorem collectKVs_orders : ∀ (kvs : List (String × JTree)) (ord : Nat),
    ord ≤ (collectKVs kvs ord).2 ∧
      (∀ r ∈ (collectKVs kvs ord).1, ord < r.order ∧ r.order ≤ (collectKVs kvs ord).2) ∧
      List.Pairwise (fun a b => a.order < b.order) (collectKVs kvs ord).1
  | [], ord => by
    refine ⟨le_rfl, ?_, List.Pairwise.nil⟩
    intro r hr
    simp [collectKVs] at hr
  | (k, v) :: rest, ord => by
    have heq : collectKVs ((k, v) :: rest) ord =
        ((collectHTTPSamplers v ord).1 ++ (collectKVs rest (collectHTTPSamplers v ord).2).1,
          (collectKVs rest (collectHTTPSamplers v ord).2).2) := rfl
    rw [heq]
    obtain ⟨a1, a2, a3⟩ := collectHTTPSamplers_orders v ord
    obtain ⟨b1, b2, b3⟩ := collectKVs_orders rest (collectHTTPSamplers v ord).2
    exact orders_append a1 a2 a3 b1 b2 b3

theorem collectElems_orders : ∀ (l : List JTree) (ord : Nat),
    ord ≤ (collectElems l ord).2 ∧
      (∀ r ∈ (collectElems l ord).1, ord < r.order ∧ r.order ≤ (collectElems l ord).2) ∧
      List.Pairwise (fun a b => a.order < b.order) (collectElems l ord).1
  | [], ord => by
    refine ⟨le_rfl, ?_, List.Pairwise.nil⟩
    intro r hr
    simp [collectElems] at hr
  | t :: rest, ord => by
    have heq : collectElems (t :: rest) ord =
        ((collectHTTPSamplers t ord).1 ++ (collectElems rest (collectHTTPSamplers t ord).2).1,
          (collectElems rest (collectHTTPSamplers t ord).2).2) := rfl
    rw [heq]
    obtain ⟨a1, a2, a3⟩ := collectHTTPSamplers_orders t ord
    obtain ⟨b1, b2, b3⟩ := collectElems_orders rest (collectHTTPSamplers t ord).2
    exact orders_append a1 a2 a3 b1 b2 b3

end

theorem pushOccurrence_mem {index : List (String × List Occurrence)} {v : String}
    {oc : Occurrence} {e : String × List Occurrence} (he : e ∈ pushOccurrence index v oc) :
    (e ∈ index ∧ ¬ e.1 = v) ∨
      (∃ occs0, (v, occs0) ∈ index ∧ e = (v, occs0 ++ [oc])) ∨ e = (v, [oc]) := by
  unfold pushOccurrence at he
  by_cases hf : (index.find? (fun e => e.1 == v)).isSome
  · rw [if_pos hf] at he
    obtain ⟨e0, he0, hee⟩ := List.mem_map.mp he
    by_cases hk : e0.1 == v
    · right; left
      have hkv : e0.1 = v := beq_iff_eq.mp hk
      rw [if_pos hk] at hee
      refine ⟨e0.2, ?_, ?_⟩
      · rw [← hkv]
        exact he0
      · rw [← hee, hkv]
    · left
      rw [if_neg hk] at hee
      rw [← hee]
      exact ⟨he0, fun hc => hk (beq_iff_eq.mpr hc)⟩
  · rw [if_neg hf] at he
    rcases List.mem_append.mp he with h1 | h2
    · left
      refine ⟨h1, ?_⟩
      intro hc
      exact hf (List.find?_isSome.mpr ⟨e, h1, beq_iff_eq.mpr hc⟩)
    · right; right
      simpa using h2

theorem indexValue_inner_invariant (s : CSampler) :
    ∀ (vs : List String) (index : List (String × List Occurrence)),
      vs.Nodup →
      (∀ e ∈ index,
        List.Pairwise (fun a b => a < b) (e.2.map (fun o => o.order)) ∧
          (∀ oc ∈ e.2, oc.order ≤ s.order) ∧
          (e.1 ∈ vs → ∀ oc ∈ e.2, oc.order < s.order)) →
      ∀ e ∈ vs.foldl (fun i v => indexValue i s v) index,
        List.Pairwise (fun a b => a < b) (e.2.map (fun o => o.order)) ∧
          ∀ oc ∈ e.2, oc.order ≤ s.order := by
  intro vs
  induction vs with
  | nil =>
    intro index _ hinv e he
    exact ⟨(hinv e he).1, (hinv e he).2.1⟩
  | cons v rest ih =>
    intro index hnd hinv e he
    rw [List.foldl_cons] at he
    have hndr : rest.Nodup := (List.nodup_cons.mp hnd).2
    have hvnot : v ∉ rest := (List.nodup_cons.mp hnd).1
    refine ih _ hndr ?_ e he
    intro e2 he2
    unfold indexValue at he2
    by_cases hig : isIgnorable v
    · rw [if_pos hig] at he2
      obtain ⟨p1, p2, p3⟩ := hinv e2 he2
      exact ⟨p1, p2, fun hm => p3 (List.mem_cons_of_mem _ hm)⟩
    · rw [if_neg hig] at he2
      rcases pushOccurrence_mem he2 with ⟨hm, hne⟩ | ⟨occs0, hm, heq⟩ | heq
      · obtain ⟨p1, p2, p3⟩ := hinv e2 hm
        exact ⟨p1, p2, fun hmem => p3 (List.mem_cons_of_mem _ hmem)⟩
      · obtain ⟨p1, p2, p3⟩ := hinv (v, occs0) hm
        have hlt : ∀ oc ∈ occs0, oc.order < s.order := p3 (List.mem_cons_self _ _)
        rw [heq]
        refine ⟨?_, ?_, ?_⟩
        · simp only [List.map_append, List.map_cons, List.map_nil]
          rw [List.pairwise_append]
          refine ⟨p1, List.pairwise_singleton _ _, ?_⟩
          intro a ha b hb
          simp only [List.mem_singleton] at hb
          obtain ⟨oc, hoc, hoca⟩ := List.mem_map.mp ha
          rw [hb, ← hoca]
          exact hlt oc hoc
        · intro oc hoc
          rcases List.mem_append.mp hoc with hm2 | hm2
          · exact le_of_lt (hlt oc hm2)
          · simp only [List.mem_singleton] at hm2
            rw [hm2]
        · intro hmem
          exact absurd hmem hvnot
      · rw [heq]
        refine ⟨List.pairwise_singleton _ _, ?_, ?_⟩
        · intro oc hoc
          simp only [List.mem_singleton] at hoc
          rw [hoc]
        · intro hmem
          exact absurd hmem hvnot

theorem buildValueIndex_pairwise_aux :
    ∀ (samplers : List CSampler) (index : List (String × List Occurrence)) (b : Nat),
      List.Pairwise (fun s1 s2 => s1.order < s2.order) samplers →
      (∀ s ∈ samplers, b < s.order ∧ s.requestValues.Nodup) →
      (∀ e ∈ index,
        List.Pairwise (fun a b => a < b) (e.2.map (fun o => o.order)) ∧
          ∀ oc ∈ e.2, oc.order ≤ b) →
      ∀ e ∈ samplers.foldl
          (fun index s => s.requestValues.foldl (fun i v => indexValue i s v) index) index,
        List.Pairwise (fun a b => a < b) (e.2.map (fun o => o.order)) := by
  intro samplers
  induction samplers with
  | nil =>
    intro index b _ _ hinv e he
    exact (hinv e he).1
  | cons s rest ih =>
    intro index b hp hs hinv e he
    rw [List.foldl_cons] at he
    have hstep := indexValue_inner_invariant s s.requestValues index
      (hs s (List.mem_cons_self _ _)).2
      (fun e2 he2 => ⟨(hinv e2 he2).1,
        fun oc hoc => le_trans ((hinv e2 he2).2 oc hoc)
          (le_of_lt (hs s (List.mem_cons_self _ _)).1),
        fun _ oc hoc => lt_of_le_of_lt ((hinv e2 he2).2 oc hoc)
          (hs s (List.mem_cons_self _ _)).1⟩)
    refine ih _ s.order (List.Pairwise.sublist (List.sublist_cons_self _ _) hp) ?_ ?_ e he
    · intro s2 hs2
      exact ⟨(List.pairwise_cons.mp hp).1 s2 hs2, (hs s2 (List.mem_cons_of_mem _ hs2)).2⟩
    · intro e2 he2
      exact hstep e2 he2

theorem pushOccurrence_keys {index : List (String × List Occurrence)} {v : String}
    {oc : Occurrence} :
    (pushOccurrence index v oc).map (fun e => e.1) =
      setAdd (index.map (fun e => e.1)) v := by
  unfold pushOccurrence setAdd
  by_cases hf : (index.find? (fun e => e.1 == v)).isSome
  · have hc : (index.map (fun e => e.1)).contains v = true := by
      obtain ⟨x, hx, hpx⟩ := List.find?_isSome.mp hf
      exact List.elem_iff.mpr (List.mem_map.mpr ⟨x, hx, beq_iff_eq.mp hpx⟩)
    rw [if_pos hf, if_pos hc, List.map_map]
    apply List.map_congr_left
    intro e _
    by_cases hk : e.1 == v
    · simp only [Function.comp_apply, if_pos hk]
    · simp only [Function.comp_apply, if_neg hk]
  · have hc : ¬ (index.map (fun e => e.1)).contains v = true := by
      intro hcon
      obtain ⟨x, hx, hxv⟩ := List.mem_map.mp (List.elem_iff.mp hcon)
      exact hf (List.find?_isSome.mpr ⟨x, hx, beq_iff_eq.mpr hxv⟩)
    rw [if_neg hf, if_neg hc, List.map_append]
    rfl

theorem indexValue_keys {index : List (String × List Occurrence)} {s : CSampler} {v : String} :
    (indexValue index s v).map (fun e => e.1) =
      if isIgnorable v then index.map (fun e => e.1)
      else setAdd (index.map (fun e => e.1)) v := by
  unfold indexValue
  by_cases hig : isIgnorable v
  · rw [if_pos hig, if_pos hig]
  · rw [if_neg hig, if_neg hig]
    exact pushOccurrence_keys

theorem foldl_indexValue_keys (s : CSampler) :
    ∀ (vs : List String) (index : List (String × List Occurrence)),
      (vs.foldl (fun i v => indexValue i s v) index).map (fun e => e.1) =
        setAddAll (index.map (fun e => e.1)) (vs.filter (fun v => !isIgnorable v)) := by
  intro vs
  induction vs with
  | nil => intro index; rfl
  | cons v rest ih =>
    intro index
    rw [List.foldl_cons]
    by_cases hig : isIgnorable v
    · have hfil : (v :: rest).filter (fun v => !isIgnorable v) =
          rest.filter (fun v => !isIgnorable v) := by
        rw [List.filter_cons]
        simp [hig]
      rw [hfil, ih]
      have hkeys : (indexValue index s v).map (fun e => e.1) =
          index.map (fun e => e.1) := by
        rw [indexValue_keys, if_pos hig]
      rw [hkeys]
    · have hfil : (v :: rest).filter (fun v => !isIgnorable v) =
          v :: rest.filter (fun v => !isIgnorable v) := by
        rw [List.filter_cons]
        simp [hig]
      rw [hfil, ih]
      have hkeys : (indexValue index s v).map (fun e => e.1) =
          setAdd (index.map (fun e => e.1)) v := by
        rw [indexValue_keys, if_neg hig]
      rw [hkeys]
      rfl

theorem buildValueIndex_keys (samplers : List CSampler) :
    (buildValueIndex samplers).map (fun e => e.1) =
      setAddAll []
        (samplers.flatMap (fun s => s.requestValues.filter (fun v => !isIgnorable v))) := by
  have aux : ∀ (ss : List CSampler) (index : List (String × List Occurrence)),
      (ss.foldl (fun index s => s.requestValues.foldl (fun i v => indexValue i s v) index)
          index).map (fun e => e.1) =
        setAddAll (index.map (fun e => e.1))
          (ss.flatMap (fun s => s.requestValues.filter (fun v => !isIgnorable v))) := by
    intro ss
    induction ss with
    | nil => intro index; rfl
    | cons s rest ih =>
      intro index
      rw [List.foldl_cons, ih, List.flatMap_cons]
      unfold setAddAll
      rw [List.foldl_append]
      rw [← setAddAll, ← setAddAll, foldl_indexValue_keys]
      rfl
  exact aux samplers []

theorem buildCorrelationSuggestions_values (index : List (String × List Occurrence)) :
    (buildCorrelationSuggestions index).map (fun s => s.detectedValue) =
      index.map (fun e => e.1) := by
  unfold buildCorrelationSuggestions
  rw [List.map_map]
  rfl

/-- C7: over any document, (1) every value-index entry records pairwise
strictly increasing sampler orders — in particular at most one
occurrence per sampler, so duplicates within one request collapse — and
(2) the suggestions list the index keys exactly, in first-insertion
(first-seen) order of the filtered value stream. -/
theorem valueIndex_shape (doc : JTree) (samplers : List CSampler)
    (h : buildSamplers (collectHTTPSamplers doc 0).1 = .ok samplers) :
    (∀ e ∈ buildValueIndex samplers,
        List.Pairwise (fun a b => a < b) (e.2.map (fun o => o.order)) ∧
          (e.2.map (fun o => o.order)).Nodup) ∧
      (buildCorrelationSuggestions (buildValueIndex samplers)).map
        (fun s => s.detectedValue) = (buildValueIndex samplers).map (fun e => e.1) ∧
      (buildValueIndex samplers).map (fun e => e.1) =
        setAddAll []
          (samplers.flatMap (fun s => s.requestValues.filter (fun v => !isIgnorable v))) := by
  obtain ⟨hmap, hnd⟩ := buildSamplers_shape h
  obtain ⟨_, hbounds, hpair⟩ := collectHTTPSamplers_orders doc 0
  have hpair2 : List.Pairwise (fun s1 s2 : CSampler => s1.order < s2.order) samplers := by
    have h1 : List.Pairwise (fun a b : Nat => a < b) (samplers.map (fun s => s.order)) := by
      rw [hmap]
      exact List.pairwise_map.mpr hpair
    exact List.pairwise_map.mp h1
  have hforall : ∀ s ∈ samplers, 0 < s.order ∧ s.requestValues.Nodup := by
    intro s hs
    refine ⟨?_, hnd s hs⟩
    have hmem : s.order ∈ samplers.map (fun s => s.order) := List.mem_map.mpr ⟨s, hs, rfl⟩
    rw [hmap] at hmem
    obtain ⟨r, hr, hro⟩ := List.mem_map.mp hmem
    rw [← hro]
    exact (hbounds r hr).1
  refine ⟨?_, buildCorrelationSuggestions_values _, buildValueIndex_keys _⟩
  intro e he
  have hpw := buildValueIndex_pairwise_aux samplers [] 0 hpair2 hforall
    (by intro e2 he2; simp at he2) e he
  exact ⟨hpw, List.Pairwise.imp (fun hab => Nat.ne_of_lt hab) hpw⟩

/-- C7, witness: the shape facts instantiated on the Login/GetProfile
document and its first index entry. -/
theorem valueIndex_shape_witness :
    List.Pairwise (fun a b => a < b) ([1, 2] : List Nat) ∧
      (buildCorrelationSuggestions (buildValueIndex samplersLoginProfile)).map
        (fun s => s.detectedValue) =
        (buildValueIndex samplersLoginProfile).map (fun e => e.1) ∧
      (buildValueIndex samplersLoginProfile).map (fun e => e.1) =
        setAddAll []
          (samplersLoginProfile.flatMap
            (fun s => s.requestValues.filter (fun v => !isIgnorable v))) := by
  obtain ⟨h1, h2, h3⟩ := valueIndex_shape docLoginProfile samplersLoginProfile rfl
  refine ⟨?_, h2, h3⟩
  have hidx : buildValueIndex samplersLoginProfile =
      [("eyJabc.def.ghi", [⟨.str "Login", 1⟩, ⟨.str "GetProfile", 2⟩]),
       ("eyJabc", [⟨.str "Login", 1⟩, ⟨.str "GetProfile", 2⟩])] := rfl
  have hmem : ("eyJabc.def.ghi",
      [(⟨.str "Login", 1⟩ : Occurrence), ⟨.str "GetProfile", 2⟩]) ∈
        buildValueIndex samplersLoginProfile := by
    rw [hidx]
    exact List.mem_cons_self _ _
  exact (h1 _ hmem).1
